import Mathlib

/-! # Food Circle server

A shallow embedding of `index.js`, the Express application of the Food Circle
server, together with the properties its specification states about it.

The application is glue between three libraries: `jsonwebtoken` (session
tokens), the MongoDB driver (two collections) and Express (routing).  The route
handlers and the `verifyToken` middleware are translated line by line.  The
libraries are represented by small executable models, each restricted to the
calls the handlers make:

* values are JSON / BSON values (`JsVal`); numbers are integers,
* a session token is symbolic: a payload together with the key that signed it,
* a collection is the list of its documents in natural order, and the query
  operators are the ones the handlers use (equality on a path, `$regex` with
  option `i`, a one-key sort, `$set`),
* a regular expression made of ordinary characters and dots is matched here;
  any other pattern is matched by the server's engine, a component of the
  environment (`Env.regex`),
* sort keys are compared in MongoDB's comparison order (`before`).
-/

namespace FoodCircle

/-! ## Values -/

/-- A JavaScript value as it occurs in request bodies, token payloads and stored
documents.  `num` carries an integer (the embedding covers integer-valued
numbers); `oid` is a BSON ObjectId given by its 24 lower-case hex digits. -/
inductive JsVal where
  | undefined
  | null
  | bool (b : Bool)
  | num (n : Int)
  | str (s : String)
  | oid (hex : String)
  | arr (xs : List JsVal)
  | obj (fields : List (String × JsVal))

/-- A JSON object / stored document: its fields in order. -/
abbrev Doc := List (String × JsVal)

namespace JsVal

mutual
/-- Structural equality of values, the equality BSON uses to compare a stored
value with a query value. -/
def beq : JsVal → JsVal → Bool
  | undefined, undefined => true
  | null, null => true
  | bool a, bool b => a == b
  | num a, num b => a == b
  | str a, str b => a == b
  | oid a, oid b => a == b
  | arr xs, arr ys => beqList xs ys
  | obj xs, obj ys => beqFields xs ys
  | _, _ => false
/-- Structural equality of arrays. -/
def beqList : List JsVal → List JsVal → Bool
  | [], [] => true
  | x :: xs, y :: ys => beq x y && beqList xs ys
  | _, _ => false
/-- Structural equality of field lists. -/
def beqFields : List (String × JsVal) → List (String × JsVal) → Bool
  | [], [] => true
  | (k, x) :: xs, (l, y) :: ys => k == l && beq x y && beqFields xs ys
  | _, _ => false
end

end JsVal

/-- Property read `d[k]` on an object: the first field named `k`, and
`undefined` when the object has none. -/
def getField : Doc → String → JsVal
  | [], _ => .undefined
  | (k', v) :: rest, k => if k' = k then v else getField rest k

/-- Property write `d[k] = v`: replaces the field in place, or appends it. -/
def setField : Doc → String → JsVal → Doc
  | [], k, v => [(k, v)]
  | (k', w) :: rest, k, v => if k' = k then (k', v) :: rest else (k', w) :: setField rest k v

/-- Removes the field named `k`. -/
def eraseField : Doc → String → Doc
  | [], _ => []
  | (k', w) :: rest, k => if k' = k then eraseField rest k else (k', w) :: eraseField rest k

/-- Optional-chaining read `v?.k` for a key that is not a built-in property
(`email`, `donator`, `donatorEmail`): own field of an object, else `undefined`. -/
def prop : JsVal → String → JsVal
  | .obj fs, k => getField fs k
  | _, _ => .undefined

/-- Strict equality `a === b` of two values that come from different parses
(a decoded token and a request): primitives compare by value, objects and
arrays are distinct references. -/
def strictEq : JsVal → JsVal → Bool
  | .undefined, .undefined => true
  | .null, .null => true
  | .bool a, .bool b => a == b
  | .num a, .num b => a == b
  | .str a, .str b => a == b
  | _, _ => false

/-- Truthiness of a string: every string but the empty one. -/
def truthy (s : String) : Bool := !s.toList.isEmpty

/-! ## Session tokens (`jsonwebtoken`) -/

/-- The value of the `token` cookie.  `signed key payload` is a well-formed
HS256 token whose signature was made with `key`; `raw s` is any other cookie
text.  Signatures are symbolic: a token verifies under a secret exactly when it
was signed with that secret. -/
inductive Token where
  | raw (s : String)
  | signed (key : String) (payload : Doc)

/-- Seconds in the `expiresIn: "365d"` option. -/
def expiresIn : Int := 365 * 24 * 60 * 60

/-- A registered claim (`iat`, `exp`, `nbf`) is acceptable when it is absent or
a number. -/
def claimOk (payload : Doc) (k : String) : Bool :=
  match getField payload k with
  | .undefined => true
  | .num _ => true
  | _ => false

/-- The call `jwt.sign(payload, secret, { expiresIn: "365d" })` on an object payload at
clock `now` (seconds); `none` when the library throws. -/
def jwtSign (secret : String) (now : Nat) (payload : Doc) : Option Token :=
  if !truthy secret then none
  else if !(claimOk payload "iat" && claimOk payload "exp" && claimOk payload "nbf") then none
  else
    match getField payload "exp" with
    | .undefined =>
      let timestamp : Int :=
        match getField payload "iat" with
        | .num t => if t = 0 then now else t
        | _ => now
      some (.signed secret
        (setField (setField payload "iat" (.num timestamp)) "exp" (.num (timestamp + expiresIn))))
    | _ => none

/-- The call `jwt.verify(token, secret, callback)` at clock `now`: the decoded payload, or
`none` when the callback receives an error (malformed token, wrong signature,
not yet valid, expired). -/
def jwtVerify (secret : String) (now : Nat) : Token → Option Doc
  | .raw _ => none
  | .signed key payload =>
    if !truthy secret then none
    else if key ≠ secret then none
    else
      let nbfOk : Bool :=
        match getField payload "nbf" with
        | .undefined => true
        | .num t => decide (t ≤ now)
        | _ => false
      let expOk : Bool :=
        match getField payload "exp" with
        | .undefined => true
        | .num t => decide ((now : Int) < t)
        | _ => false
      if nbfOk && expOk then some payload else none

/-- JavaScript falsiness of the cookie value: only the empty text is falsy. -/
def Token.falsy : Token → Bool
  | .raw s => !truthy s
  | .signed _ _ => false

/-! ## The document store (MongoDB driver) -/

/-- What makes a handler throw instead of answering. -/
inductive Failure where
  /-- Thrown by `new ObjectId(id)`: `id` is not a 24 character hex string. -/
  | bsonError
  /-- The driver rejects the sort direction. -/
  | invalidSort
  /-- The server rejects an insert whose `_id` is already present. -/
  | duplicateKey
  /-- The server rejects an array as `_id`. -/
  | invalidId
  /-- Thrown by `jwt.sign`. -/
  | signError
  /-- The server rejects the regular expression of a `$regex` condition. -/
  | invalidRegex
  /-- The update names a key that `$set` does not treat as a plain field (a dotted
  path, an operator, `_id`), which lies beyond the update operators embedded
  here. -/
  | outsideModel

/-- Hex digit test of the ObjectId constructor. -/
def isHexDigit (c : Char) : Bool :=
  c.isDigit || ('a' ≤ c && c ≤ 'f') || ('A' ≤ c && c ≤ 'F')

/-- The constructor call `new ObjectId(id)` on a string: defined on 24 hex digits, which it
reads case-insensitively. -/
def ObjectId (id : String) : Option JsVal :=
  if id.toList.length = 24 && id.toList.all isHexDigit then
    some (.oid (String.mk (id.toList.map Char.toLower)))
  else none

/-- One element of a pattern made of ordinary characters and dots.  Patterns of
this shape are matched by the functions below; every other pattern is matched
by the server's engine, `Env.regex`. -/
inductive RxAtom where
  /-- An ordinary character, matched without regard to ASCII letter case. -/
  | lit (c : Char)
  /-- The dot: any character but a line feed. -/
  | any

/-- Characters with a special meaning in a pattern. -/
def rxMeta : List Char :=
  ['\\', '^', '$', '.', '|', '?', '*', '+', '(', ')', '[', ']', '{', '}']

/-- Reads a pattern made of ordinary ASCII characters and dots; `none` for any
other pattern, which is then left to the server's engine. -/
def rxParse : List Char → Option (List RxAtom)
  | [] => some []
  | c :: cs =>
    match rxParse cs with
    | none => none
    | some rest =>
      if c = '.' then some (.any :: rest)
      else if rxMeta.contains c || decide (128 ≤ c.toNat) then none
      else some (.lit c :: rest)

/-- Whether an atom accepts a subject character (option `i`). -/
def RxAtom.accepts : RxAtom → Char → Bool
  | .lit p, c => p.toLower == c.toLower
  | .any, c => c != '\n'

/-- The pattern matches a prefix of the subject. -/
def rxMatchHere : List RxAtom → List Char → Bool
  | [], _ => true
  | _ :: _, [] => false
  | a :: rest, c :: cs => a.accepts c && rxMatchHere rest cs

/-- The pattern matches somewhere in the subject (patterns are unanchored). -/
def rxSearch (atoms : List RxAtom) : List Char → Bool
  | [] => rxMatchHere atoms []
  | c :: cs => rxMatchHere atoms (c :: cs) || rxSearch atoms cs

/-- A condition on one field of a query document. -/
inductive Cond where
  /-- The plain form `{ field: v }`. -/
  | eq (v : JsVal)
  /-- The operator form `{ field: { $regex: pattern, $options: "i" } }`. -/
  | regex (pattern : String)

/-- A query document: conditions on dotted paths, all of which must hold. -/
abbrev Query := List (List String × Cond)

/-- A regular expression engine: the search predicate of a pattern compiled
with option `i`, or `none` when the pattern is rejected as malformed. -/
abbrev Engine := String → Option (String → Bool)

/-- The search predicate of a pattern: the matcher above for a pattern of
ordinary characters and dots, the engine `rx` for every other pattern. -/
def compile (rx : Engine) (pattern : String) : Option (String → Bool) :=
  match rxParse pattern.toList with
  | some atoms => some fun s => rxSearch atoms s.toList
  | none => rx pattern

/-- The test a condition applies to a single value; `none` when the server
rejects the condition.  A regular expression only matches strings. -/
def condTest (rx : Engine) : Cond → Option (JsVal → Bool)
  | .eq v => some (fun x => x.beq v)
  | .regex pattern =>
    match compile rx pattern with
    | some test =>
      some (fun x => match x with
        | .str s => test s
        | _ => false)
    | none => none

/-- MongoDB's field matching: the test holds of the value at the path, or, when
that value is an array, of one of its elements; an array met on the way is
searched through its embedded documents. -/
def pathAny (p : JsVal → Bool) : List String → JsVal → Bool
  | [], v => p v || (match v with
      | .arr xs => xs.any p
      | _ => false)
  | k :: ks, .obj fs => pathAny p ks (getField fs k)
  | k :: ks, .arr xs => xs.any (fun x => match x with
      | .obj fs => pathAny p ks (getField fs k)
      | _ => false)
  | _ :: _, _ => false

/-- The predicate a query selects documents with; `none` when the server
rejects one of its conditions. -/
def queryTest (rx : Engine) : Query → Option (Doc → Bool)
  | [] => some (fun _ => true)
  | (path, c) :: rest =>
    match condTest rx c, queryTest rx rest with
    | some t, some r => some (fun d => pathAny t path (.obj d) && r d)
    | _, _ => none

/-- Insertion into a list ordered by `le`, before the first element that `a`
may precede. -/
def insertBy {α : Type} (le : α → α → Bool) (a : α) : List α → List α
  | [] => [a]
  | b :: l => if le a b then a :: b :: l else b :: insertBy le a l

/-- Stable sort by `le`. -/
def sortBy {α : Type} (le : α → α → Bool) : List α → List α
  | [] => []
  | a :: l => insertBy le a (sortBy le l)

/-- ASCII lower-casing of a string. -/
def lower (s : String) : String := String.mk (s.toList.map Char.toLower)

/-- The driver's reading of a sort direction: `1` for ascending, `-1` for
descending, `none` when it throws. -/
def sortDirection : JsVal → Option Int
  | .num n => if n = 1 then some 1 else if n = -1 then some (-1) else none
  | .str s =>
    if lower s = "asc" || lower s = "ascending" || s = "1" then some 1
    else if lower s = "desc" || lower s = "descending" || s = "-1" then some (-1)
    else none
  | _ => none

/-- Rank of a value's type in MongoDB's comparison order: null (and a missing
field), numbers, strings, objects, arrays, ObjectIds, booleans. -/
def bsonRank : JsVal → Int
  | .undefined => 5
  | .null => 5
  | .num _ => 10
  | .str _ => 15
  | .obj _ => 20
  | .arr _ => 25
  | .oid _ => 35
  | .bool _ => 40

/-- A string as comparison tokens: its code points, each raised by one, closed
by `0`, so that a proper prefix comes first. -/
def strTokens (cs : List Char) : List Int :=
  cs.map (fun c => (c.toNat : Int) + 1) ++ [0]

mutual
/-- A value written out as comparison tokens, after its type rank.  Numbers
compare by value, strings and ObjectIds by code point, booleans `false` first,
objects and arrays element by element: type rank, then field name, then value,
the shorter one first when it is a prefix. -/
def bsonBody : JsVal → List Int
  | .undefined => []
  | .null => []
  | .num n => [n]
  | .str s => strTokens s.toList
  | .oid hex => strTokens hex.toList
  | .bool b => [if b then 1 else 0]
  | .arr xs => bsonElems xs
  | .obj fs => bsonFields fs
/-- The elements of an array as comparison tokens. -/
def bsonElems : List JsVal → List Int
  | [] => [0]
  | x :: xs => bsonRank x :: (bsonBody x ++ bsonElems xs)
/-- The fields of an object as comparison tokens. -/
def bsonFields : List (String × JsVal) → List Int
  | [] => [0]
  | (k, x) :: fs => bsonRank x :: (strTokens k.toList ++ (bsonBody x ++ bsonFields fs))
end

/-- Lexicographic order on token lists. -/
def lexLe : List Int → List Int → Bool
  | [], _ => true
  | _ :: _, [] => false
  | a :: as, b :: bs => decide (a < b) || (a == b && lexLe as bs)

/-- The tokens of a whole value. -/
def bsonTokens (v : JsVal) : List Int := bsonRank v :: bsonBody v

/-- The least (`dir = 1`) or greatest (otherwise) of a non-empty run of token
lists. -/
def extreme (dir : Int) (first : List Int) (others : List (List Int)) : List Int :=
  others.foldl
    (fun m t => if dir = 1 then (if lexLe t m then t else m) else (if lexLe m t then t else m))
    first

/-- The sort key of a field value under a direction.  An array is represented by
its least element in an ascending sort and by its greatest in a descending one;
an empty array comes before null. -/
def sortKey (dir : Int) : JsVal → List Int
  | .arr [] => [0]
  | .arr (x :: xs) => extreme dir (bsonTokens x) (xs.map bsonTokens)
  | v => bsonTokens v

/-- Whether the server may place a document with sort-key value `x` before one
with `y`: keys ascend for direction `1` and descend otherwise. -/
def before (dir : Int) (x y : JsVal) : Bool :=
  if dir = 1 then lexLe (sortKey dir x) (sortKey dir y)
  else lexLe (sortKey dir y) (sortKey dir x)

/-- The call `collection.find(query, { sort }).toArray()` with a sort on one field. -/
def find (rx : Engine) (query : Query)
    (sort : Option (String × JsVal)) (coll : List Doc) : Except Failure (List Doc) :=
  match queryTest rx query with
  | none => .error .invalidRegex
  | some test =>
    match sort with
    | none => .ok (coll.filter test)
    | some (key, direction) =>
      match sortDirection direction with
      | none => .error .invalidSort
      | some dir =>
        .ok (sortBy (fun a b => before dir (getField a key) (getField b key)) (coll.filter test))

/-- The call `collection.findOne(query)`: the first match, or `null`. -/
def findOne (rx : Engine) (query : Query) (coll : List Doc) : Except Failure JsVal :=
  match queryTest rx query with
  | none => .error .invalidRegex
  | some test =>
    match coll.find? test with
    | some d => .ok (.obj d)
    | none => .ok .null

/-- The call `collection.insertOne(doc)`.  `gen` is the ObjectId the driver generates when the
document brings no `_id`.  Yields the result object and the new collection. -/
def insertOne (gen : String) (doc : Doc) (coll : List Doc) :
    Except Failure (JsVal × List Doc) :=
  let id : JsVal :=
    match getField doc "_id" with
    | .undefined => .oid gen
    | .null => .oid gen
    | v => v
  match id with
  | .arr _ => .error .invalidId
  | _ =>
    if coll.any (fun d => (getField d "_id").beq id) then .error .duplicateKey
    else
      .ok (.obj [("acknowledged", .bool true), ("insertedId", id)],
           coll ++ [("_id", id) :: eraseField doc "_id"])

/-- Removes the first element satisfying `test`. -/
def removeFirst (test : Doc → Bool) : List Doc → List Doc
  | [] => []
  | d :: l => if test d then l else d :: removeFirst test l

/-- The call `collection.deleteOne(query)`. -/
def deleteOne (rx : Engine) (query : Query) (coll : List Doc) :
    Except Failure (JsVal × List Doc) :=
  match queryTest rx query with
  | none => .error .invalidRegex
  | some test =>
    .ok (.obj [("acknowledged", .bool true),
               ("deletedCount", .num (if coll.any test then 1 else 0))],
         removeFirst test coll)

/-- The driver writes an `undefined` field as `null`. -/
def stored : JsVal → JsVal
  | .undefined => .null
  | v => v

/-- Applies `$set: fields` to a document. -/
def applySet (fields : Doc) (d : Doc) : Doc :=
  fields.foldl (fun acc kv => setField acc kv.1 (stored kv.2)) d

/-- Replaces the first element satisfying `test` by its image under `f`. -/
def updateFirst (test : Doc → Bool) (f : Doc → Doc) : List Doc → List Doc
  | [] => []
  | d :: l => if test d then f d :: l else d :: updateFirst test f l

/-- A key `$set` handles as a plain top-level field other than `_id`. -/
def plainKey (k : String) : Bool :=
  !k.toList.isEmpty && !k.toList.contains '.' && k.toList.head? != some '$' && k != "_id"

/-- The result object of `updateOne`. -/
def updateResult (modified : Int) (upsertedId : JsVal) (upserted matched : Int) : JsVal :=
  .obj [("acknowledged", .bool true), ("modifiedCount", .num modified),
        ("upsertedId", upsertedId), ("upsertedCount", .num upserted),
        ("matchedCount", .num matched)]

/-- The call `collection.updateOne({ _id: id }, { $set: fields }, { upsert })`. -/
def updateOne (rx : Engine) (id : JsVal) (fields : Doc) (upsert : Bool) (coll : List Doc) :
    Except Failure (JsVal × List Doc) :=
  if !fields.all (fun kv => plainKey kv.1) then .error .outsideModel
  else
    match queryTest rx [(["_id"], .eq id)] with
    | none => .error .invalidRegex
    | some test =>
      match coll.find? test with
      | some d =>
        let modified : Int := if JsVal.beq (.obj (applySet fields d)) (.obj d) then 0 else 1
        .ok (updateResult modified .null 0 1, updateFirst test (applySet fields) coll)
      | none =>
        if upsert then
          .ok (updateResult 0 id 1 0, coll ++ [applySet fields [("_id", id)]])
        else .ok (updateResult 0 .null 0 0, coll)

/-! ## JavaScript built-ins used by the feature route -/

/-- White space skipped by `parseInt` (the `WhiteSpace` and `LineTerminator`
code points). -/
def isJsSpace (c : Char) : Bool :=
  [9, 10, 11, 12, 13, 32, 160, 5760, 8232, 8233, 8239, 8287, 12288, 65279].contains c.toNat
    || (decide (8192 ≤ c.toNat) && decide (c.toNat ≤ 8202))

/-- Value of a digit in the given radix (10 or 16). -/
def digitValue (radix : Nat) (c : Char) : Option Nat :=
  if c.isDigit then some (c.toNat - 48)
  else if radix = 16 && decide ('a' ≤ c) && decide (c ≤ 'f') then some (c.toNat - 87)
  else if radix = 16 && decide ('A' ≤ c) && decide (c ≤ 'F') then some (c.toNat - 55)
  else none

/-- Reads the longest run of digits at the front, accumulating its value; the
flag tells whether a digit was read. -/
def readDigits (radix : Nat) : List Char → Nat → Bool → Nat × Bool
  | [], acc, seen => (acc, seen)
  | c :: cs, acc, seen =>
    match digitValue radix c with
    | some d => readDigits radix cs (acc * radix + d) true
    | none => (acc, seen)

/-- The call `parseInt(s)` on a string, `none` standing for `NaN`: leading white space, an
optional sign, an optional `0x` prefix, then digits up to the first other
character. -/
def parseIntStr (s : List Char) : Option Int :=
  let s1 := s.dropWhile isJsSpace
  let negative : Bool := s1.head? == some '-'
  let s2 := if s1.head? == some '-' || s1.head? == some '+' then s1.tail else s1
  let hex : Bool := s2.take 2 == ['0', 'x'] || s2.take 2 == ['0', 'X']
  let s3 := if hex then s2.drop 2 else s2
  match readDigits (if hex then 16 else 10) s3 0 false with
  | (n, true) => some (if negative then -(n : Int) else (n : Int))
  | (_, false) => none

mutual
/-- The call `parseInt(v)`, `none` standing for `NaN`.  The argument is first turned into a
string: a number into its decimal numeral, an ObjectId into its hex digits, an
array into its elements joined by commas (so that only the first element
counts); `undefined`, `null`, booleans and objects give no digits. -/
def parseInt : JsVal → Option Int
  | .num n => some n
  | .str s => parseIntStr s.toList
  | .oid h => parseIntStr h.toList
  | .arr xs => parseIntHead xs
  | _ => none
/-- The function `parseInt` on the elements of an array. -/
def parseIntHead : List JsVal → Option Int
  | [] => none
  | x :: _ => parseInt x
end

/-- The comparison function `(a, b) => parseInt(b.quantity) - parseInt(a.quantity)`; `none` stands
for `NaN`. -/
def compareFn (a b : Doc) : Option Int :=
  match parseInt (getField b "quantity"), parseInt (getField a "quantity") with
  | some x, some y => some (x - y)
  | _, _ => none

/-- Whether `Array.prototype.sort` may leave `a` before `b`: the comparison is
not positive (`NaN` counts as zero). -/
def notAfter (a b : Doc) : Bool :=
  match compareFn a b with
  | some v => decide (v ≤ 0)
  | none => true

/-! ## The application -/

/-- Process environment and the database server's regular expression engine. -/
structure Env where
  /-- The variable `process.env.SECRET_KEY`. -/
  SECRET_KEY : String
  /-- Whether `process.env.NODE_ENV` is `"production"`. -/
  production : Bool
  /-- The server's regular expression engine, consulted for the patterns that are
  not made of ordinary characters and dots alone. -/
  regex : Engine

/-- The routes of the application. -/
inductive Route where
  | postJwt
  | getLogout
  | getFoods
  | getAllFoods
  | getFood
  | postFoods
  | patchRequestFoods
  | getFoodManage
  | putUpdateFood
  | deleteFood
  | getMyRequest
  | postFoodRequest
  | getRoot

/-- An incoming request, with the two inputs the environment supplies while it
is served: the clock and the ObjectId the driver would generate. -/
structure Request where
  /-- Method and path. -/
  route : Route
  /-- The path parameter, `req.params.id` or `req.params.email`. -/
  param : String
  /-- The query parameter `req.query.search`. -/
  search : Option String
  /-- The query parameter `req.query.sort`. -/
  sort : Option String
  /-- The parsed JSON body, an object. -/
  body : Doc
  /-- The cookie `req.cookies.token`. -/
  token : Option Token
  /-- The property `req.user`, set by `verifyToken`. -/
  user : Option Doc
  /-- Clock, in seconds. -/
  now : Nat
  /-- The next generated ObjectId, as hex digits. -/
  gen : String

/-- The answer to a request. -/
inductive Response where
  /-- The plain call `res.send(v)`, status 200. -/
  | send (v : JsVal)
  /-- The call `res.status(code).send({ message })`. -/
  | status (code : Nat) (message : String)
  /-- The call `res.cookie("token", t, ...).send({ success: true })`. -/
  | cookie (t : Token) (secure : Bool) (sameSite : String)
  /-- The call `res.clearCookie("token", ...).send({ success: true })`. -/
  | clearCookie (secure : Bool) (sameSite : String)
  /-- The handler threw. -/
  | failure (e : Failure)

/-- The two collections. -/
structure Db where
  foodCollection : List Doc
  foodRequestCollection : List Doc

/-- Outcome of a middleware: it answers, or calls `next()`. -/
inductive Gate where
  | respond (r : Response)
  | next (req : Request)

/-- The middleware `verifyToken`. -/
def verifyToken (env : Env) (req : Request) : Gate :=
  match req.token with
  | none => .respond (.status 401 "Unauthorized access!")
  | some token =>
    if token.falsy then .respond (.status 401 "Unauthorized access!")
    else
      match jwtVerify env.SECRET_KEY req.now token with
      | none => .respond (.status 401 "Unauthorized access.")
      | some decoded => .next { req with user := some decoded }

/-- The expression `req.user?.email`. -/
def decodedEmail (req : Request) : JsVal :=
  match req.user with
  | none => .undefined
  | some u => getField u "email"

/-- The cookie attribute `sameSite`. -/
def sameSite (env : Env) : String := if env.production then "none" else "strict"

/-- Answers with the outcome of `findOne`. -/
def sendOne (db : Db) : Except Failure JsVal → Response × Db
  | .ok v => (.send v, db)
  | .error e => (.failure e, db)

/-- Answers with the outcome of `find(...).toArray()`. -/
def sendDocs (db : Db) : Except Failure (List Doc) → Response × Db
  | .ok result => (.send (.arr (result.map .obj)), db)
  | .error e => (.failure e, db)

/-- Answers with the outcome of a write to the foods collection. -/
def sendFoods (db : Db) : Except Failure (JsVal × List Doc) → Response × Db
  | .ok (result, foods) => (.send result, { db with foodCollection := foods })
  | .error e => (.failure e, db)

/-- Answers with the outcome of a write to the requests collection. -/
def sendRequests (db : Db) : Except Failure (JsVal × List Doc) → Response × Db
  | .ok (result, requests) => (.send result, { db with foodRequestCollection := requests })
  | .error e => (.failure e, db)

/-- Handler of `POST /jwt`. -/
def postJwt (env : Env) (db : Db) (req : Request) : Response × Db :=
  match jwtSign env.SECRET_KEY req.now req.body with
  | some token => (.cookie token env.production (sameSite env), db)
  | none => (.failure .signError, db)

/-- Handler of `GET /logout`. -/
def getLogout (env : Env) (db : Db) (_req : Request) : Response × Db :=
  (.clearCookie env.production (sameSite env), db)

/-- The value of `(sort === "asc" && 1) || (sort === "dsc" && -1)`. -/
def sortValue (sort : String) : JsVal :=
  if sort = "asc" then .num 1 else if sort = "dsc" then .num (-1) else .bool false

/-- The `options.sort` object that `GET /foods` builds, if any. -/
def foodsSort (sort : Option String) : Option (String × JsVal) :=
  match sort with
  | some s => if truthy s then some ("expiredDate", sortValue s) else none
  | none => none

/-- The query that `GET /foods` builds. -/
def foodsQuery (search : Option String) : Query :=
  match search with
  | some s =>
    if truthy s then [(["status"], .eq (.str "available")), (["name"], .regex s)]
    else [(["status"], .eq (.str "available"))]
  | none => [(["status"], .eq (.str "available"))]

/-- Handler of `GET /foods`. -/
def getFoods (env : Env) (db : Db) (req : Request) : Response × Db :=
  sendDocs db (find env.regex (foodsQuery req.search) (foodsSort req.sort) db.foodCollection)

/-- The items `GET /all-foods` selects: sorted by the comparison function, first six. -/
def featured (result : List Doc) : List Doc :=
  (sortBy notAfter result).take 6

/-- Handler of `GET /all-foods`. -/
def getAllFoods (env : Env) (db : Db) (_req : Request) : Response × Db :=
  match find env.regex [] none db.foodCollection with
  | .ok result => (.send (.arr ((featured result).map .obj)), db)
  | .error e => (.failure e, db)

/-- Handler of `GET /food/:id`. -/
def getFood (env : Env) (db : Db) (req : Request) : Response × Db :=
  match ObjectId req.param with
  | none => (.failure .bsonError, db)
  | some id => sendOne db (findOne env.regex [(["_id"], .eq id)] db.foodCollection)

/-- Handler of `POST /foods`. -/
def postFoods (_env : Env) (db : Db) (req : Request) : Response × Db :=
  let userEmail := prop (prop (.obj req.body) "donator") "donatorEmail"
  if !strictEq (decodedEmail req) userEmail then (.status 403 "Forbidden access", db)
  else sendFoods db (insertOne req.gen req.body db.foodCollection)

/-- Handler of `PATCH /requestFoods/:id`. -/
def patchRequestFoods (env : Env) (db : Db) (req : Request) : Response × Db :=
  match ObjectId req.param with
  | none => (.failure .bsonError, db)
  | some id =>
    sendFoods db
      (updateOne env.regex id [("status", getField req.body "status")] false db.foodCollection)

/-- Handler of `GET /food-manage/:email`. -/
def getFoodManage (env : Env) (db : Db) (req : Request) : Response × Db :=
  if !strictEq (decodedEmail req) (.str req.param) then (.status 403 "Forbidden access", db)
  else
    sendDocs db
      (find env.regex [(["donator", "donatorEmail"], .eq (.str req.param))] none
        db.foodCollection)

/-- Handler of `PUT /update-food/:id`. -/
def putUpdateFood (env : Env) (db : Db) (req : Request) : Response × Db :=
  match ObjectId req.param with
  | none => (.failure .bsonError, db)
  | some id => sendFoods db (updateOne env.regex id req.body true db.foodCollection)

/-- Handler of `DELETE /delete-food/:id`. -/
def deleteFood (env : Env) (db : Db) (req : Request) : Response × Db :=
  match ObjectId req.param with
  | none => (.failure .bsonError, db)
  | some id => sendFoods db (deleteOne env.regex [(["_id"], .eq id)] db.foodCollection)

/-- Handler of `GET /my-request/:email`. -/
def getMyRequest (env : Env) (db : Db) (req : Request) : Response × Db :=
  if !strictEq (decodedEmail req) (.str req.param) then (.status 403 "Forbidden access", db)
  else
    sendDocs db (find env.regex [(["userEmail"], .eq (.str req.param))] none
      db.foodRequestCollection)

/-- Handler of `POST /food-request`. -/
def postFoodRequest (_env : Env) (db : Db) (req : Request) : Response × Db :=
  sendRequests db (insertOne req.gen req.body db.foodRequestCollection)

/-- Handler of `GET /`. -/
def getRoot (_env : Env) (db : Db) (_req : Request) : Response × Db :=
  (.send (.str "Food circle server is running.."), db)

/-- The handler registered for a route. -/
def handler : Route → Env → Db → Request → Response × Db
  | .postJwt => postJwt
  | .getLogout => getLogout
  | .getFoods => getFoods
  | .getAllFoods => getAllFoods
  | .getFood => getFood
  | .postFoods => postFoods
  | .patchRequestFoods => patchRequestFoods
  | .getFoodManage => getFoodManage
  | .putUpdateFood => putUpdateFood
  | .deleteFood => deleteFood
  | .getMyRequest => getMyRequest
  | .postFoodRequest => postFoodRequest
  | .getRoot => getRoot

/-- Whether a route is registered with the `verifyToken` middleware. -/
def gated : Route → Bool
  | .postFoods => true
  | .patchRequestFoods => true
  | .getFoodManage => true
  | .putUpdateFood => true
  | .deleteFood => true
  | .getMyRequest => true
  | .postFoodRequest => true
  | _ => false

/-- Serving one request: the middleware chain of its route, then the handler. -/
def serve (env : Env) (db : Db) (req : Request) : Response × Db :=
  if gated req.route then
    match verifyToken env req with
    | .respond r => (r, db)
    | .next req' => handler req.route env db req'
  else handler req.route env db req

/-! ## Sample data -/

/-- How often an element of a sample pattern may repeat. -/
inductive Repeat where
  | once
  | optional
  | star
  | plus

/-- Reads one alternative of a sample pattern: ordinary characters, dots and
escaped metacharacters, each optionally followed by `?`, `*` or `+`.  The
flag tells whether the last element may still take a quantifier. -/
def sampleItems : List Char → List (RxAtom × Repeat) → Bool → Option (List (RxAtom × Repeat))
  | [], acc, _ => some acc.reverse
  | c :: cs, acc, open_ =>
    if c = '\\' then
      match cs with
      | e :: rest => if rxMeta.contains e then sampleItems rest ((.lit e, .once) :: acc) true
        else none
      | [] => none
    else if c = '?' || c = '*' || c = '+' then
      match acc, open_ with
      | (a, _) :: done, true =>
        sampleItems cs
          ((a, if c = '?' then .optional else if c = '*' then .star else .plus) :: done) false
      | _, _ => none
    else if c = '.' then sampleItems cs ((.any, .once) :: acc) true
    else if rxMeta.contains c then none
    else sampleItems cs ((.lit c, .once) :: acc) true

/-- Zero or more characters accepted by `a`, then the continuation. -/
def sampleStar (a : RxAtom) (k : List Char → Bool) : List Char → Bool
  | [] => k []
  | c :: cs => k (c :: cs) || (a.accepts c && sampleStar a k cs)

/-- The elements match a prefix of the subject. -/
def sampleMatch : List (RxAtom × Repeat) → List Char → Bool
  | [], _ => true
  | (a, .once) :: rest, s =>
    match s with
    | c :: cs => a.accepts c && sampleMatch rest cs
    | [] => false
  | (a, .optional) :: rest, s =>
    sampleMatch rest s || (match s with
      | c :: cs => a.accepts c && sampleMatch rest cs
      | [] => false)
  | (a, .star) :: rest, s => sampleStar a (sampleMatch rest) s
  | (a, .plus) :: rest, s =>
    match s with
    | c :: cs => a.accepts c && sampleStar a (sampleMatch rest) cs
    | [] => false

/-- Some suffix of the subject satisfies `p`. -/
def anySuffix (p : List Char → Bool) : List Char → Bool
  | [] => p []
  | c :: cs => p (c :: cs) || anySuffix p cs

/-- Splits a pattern at its `|` signs. -/
def alternatives : List Char → List (List Char)
  | [] => [[]]
  | c :: cs =>
    match alternatives cs with
    | first :: others => if c = '|' then [] :: first :: others else (c :: first) :: others
    | [] => [[c]]

/-- A sample engine for the sample environment: alternatives separated by `|`,
each a run of characters, dots and escaped metacharacters with optional `?`,
`*` and `+`.  Anything else (groups, classes, anchors) it rejects. -/
def sampleEngine : Engine := fun pattern =>
  match (alternatives pattern.toList).mapM (fun alt => sampleItems alt [] false) with
  | some alts => some fun s => alts.any fun items => anySuffix (sampleMatch items) s.toList
  | none => none

/-- A sample environment. -/
def sampleEnv : Env := ⟨"s3cret", false, sampleEngine⟩

/-- A sample request: `GET /foods` without parameters, cookie or body. -/
def sampleReq : Request :=
  ⟨.getFoods, "", none, none, [], none, none, 2000, "0123456789abcdef01234567"⟩

/-- A sample session token for the given email, issued at clock 1000. -/
def sampleToken (email : String) : Token :=
  .signed "s3cret" [("email", .str email), ("iat", .num 1000), ("exp", .num 31537000)]

/-- A sample food item. -/
def rice : Doc :=
  [("_id", .oid "aaaaaaaaaaaaaaaaaaaaaaaa"), ("name", .str "Rice"), ("quantity", .str "5"),
   ("status", .str "available"), ("donator", .obj [("donatorEmail", .str "ann@x.org")])]

/-- A sample food item with the given name and expiry date. -/
def dated (name expiry : String) : Doc :=
  [("name", .str name), ("status", .str "available"), ("expiredDate", .str expiry)]

/-- A stored item whose status is an array. -/
def listed : Doc :=
  [("_id", .oid "bbbbbbbbbbbbbbbbbbbbbbbb"), ("name", .str "Bread"),
   ("status", .arr [.str "available", .str "fresh"])]

/-! ## Vocabulary of the specification -/

/-- The name contains the term as a substring when ASCII letter case is
ignored. -/
def containsCI (name term : String) : Prop :=
  List.IsInfix (term.toList.map Char.toLower) (name.toList.map Char.toLower)

/-- An ASCII character without special meaning in a regular expression. -/
def ordinary (c : Char) : Bool :=
  !rxMeta.contains c && decide (c.toNat < 128)

/-- The integer the feature route ranks an item by: `parseInt(item.quantity)`, that
is the leading integer part of the quantity (`1.9` gives 1, `1e3` gives 1);
`none` for `NaN`. -/
def quantity (d : Doc) : Option Int := parseInt (getField d "quantity")

/-- For both items `parseInt` reads an integer from the quantity, and the one
of `a` is at least the one of `b`. -/
def quantityGe (a b : Doc) : Prop :=
  ∃ x y, quantity a = some x ∧ quantity b = some y ∧ y ≤ x

/-- For this item `parseInt` reads an integer from the quantity, in the range
JavaScript numbers represent exactly. -/
def safeQuantity (d : Doc) : Prop :=
  ∃ x, quantity d = some x ∧ x.natAbs < 2 ^ 53

/-- A sample item with the given quantity. -/
def portion (q : String) : Doc := [("name", .str "Soup"), ("quantity", .str q)]

/-- Whether the object has a field named `k`. -/
def hasField (d : Doc) (k : String) : Bool := d.any fun kv => kv.1 == k

/-- The invariant the store keeps on a collection: no `_id` is an array and no
two documents share an `_id`. -/
def WellFormed (coll : List Doc) : Prop :=
  (∀ d ∈ coll, ∀ xs, getField d "_id" ≠ .arr xs) ∧
    coll.Pairwise fun a b => getField a "_id" ≠ getField b "_id"

/-- A sample item submitted with an `_id` of its own. -/
def labelled : Doc :=
  [("_id", .str "cccccccccccccccccccccccc"), ("name", .str "Beans"),
   ("donator", .obj [("donatorEmail", .str "ann@x.org")])]

/-- A sample item as a client submits it. -/
def beans : Doc :=
  [("name", .str "Beans"), ("quantity", .str "2"), ("status", .str "available"),
   ("donator", .obj [("donatorEmail", .str "ann@x.org")])]

/-- A sample gated request by `ann@x.org`: the given route and path parameter,
the item `beans` as body. -/
def annReq (route : Route) (param : String) : Request :=
  { sampleReq with route := route, param := param, body := beans,
                   token := some (sampleToken "ann@x.org") }

/-- A sample store holding the item `rice`. -/
def sampleDb : Db := ⟨[rice], []⟩

/-! # Properties -/

/-! ## Basic facts -/

namespace JsVal

mutual
theorem beq_refl : ∀ a : JsVal, beq a a = true
  | undefined => by simp [beq]
  | null => by simp [beq]
  | bool _ => by simp [beq]
  | num _ => by simp [beq]
  | str _ => by simp [beq]
  | oid _ => by simp [beq]
  | arr xs => by simp [beq, beqList_refl xs]
  | obj fs => by simp [beq, beqFields_refl fs]
theorem beqList_refl : ∀ xs : List JsVal, beqList xs xs = true
  | [] => by simp [beqList]
  | x :: xs => by simp [beqList, beq_refl x, beqList_refl xs]
theorem beqFields_refl : ∀ fs : List (String × JsVal), beqFields fs fs = true
  | [] => by simp [beqFields]
  | (k, x) :: fs => by simp [beqFields, beq_refl x, beqFields_refl fs]
end

mutual
theorem eq_of_beq : ∀ a b : JsVal, beq a b = true → a = b
  | undefined, b => by cases b <;> simp [beq]
  | null, b => by cases b <;> simp [beq]
  | bool _, b => by cases b <;> simp [beq]
  | num _, b => by cases b <;> simp [beq]
  | str _, b => by cases b <;> simp [beq]
  | oid _, b => by cases b <;> simp [beq]
  | arr xs, b => by
      cases b <;> simp [beq]
      exact eqList_of_beq xs _
  | obj fs, b => by
      cases b <;> simp [beq]
      exact eqFields_of_beq fs _
theorem eqList_of_beq : ∀ xs ys : List JsVal, beqList xs ys = true → xs = ys
  | [], ys => by cases ys <;> simp [beqList]
  | x :: xs, ys => by
      cases ys with
      | nil => simp [beqList]
      | cons y ys =>
        simp [beqList]
        intro h1 h2
        exact ⟨eq_of_beq x y h1, eqList_of_beq xs ys h2⟩
theorem eqFields_of_beq :
    ∀ fs gs : List (String × JsVal), beqFields fs gs = true → fs = gs
  | [], gs => by cases gs <;> simp [beqFields]
  | (k, x) :: fs, gs => by
      cases gs with
      | nil => simp [beqFields]
      | cons g gs =>
        obtain ⟨l, y⟩ := g
        simp [beqFields]
        intro h0 h1 h2
        exact ⟨⟨h0, eq_of_beq x y h1⟩, eqFields_of_beq fs gs h2⟩
end

theorem beq_iff (a b : JsVal) : beq a b = true ↔ a = b :=
  ⟨eq_of_beq a b, fun h => h ▸ beq_refl a⟩

end JsVal

theorem strictEq_str (a b : String) : strictEq (.str a) (.str b) = decide (a = b) := by
  by_cases h : a = b <;> simp [strictEq, h]

theorem jwtVerify_raw (secret : String) (now : Nat) (s : String) :
    jwtVerify secret now (.raw s) = none := rfl

theorem jwtVerify_of_falsy (secret : String) (now : Nat) (t : Token) (h : t.falsy = true) :
    jwtVerify secret now t = none := by
  cases t with
  | raw s => rfl
  | signed k p => simp [Token.falsy] at h

theorem sendOne_ne_status (db : Db) (r : Except Failure JsVal) (code : Nat) (msg : String) :
    (sendOne db r).1 ≠ .status code msg := by
  cases r <;> simp [sendOne]

theorem sendDocs_ne_status (db : Db) (r : Except Failure (List Doc)) (code : Nat)
    (msg : String) : (sendDocs db r).1 ≠ .status code msg := by
  cases r <;> simp [sendDocs]

theorem sendFoods_ne_status (db : Db) (r : Except Failure (JsVal × List Doc)) (code : Nat)
    (msg : String) : (sendFoods db r).1 ≠ .status code msg := by
  rcases r with e | ⟨v, l⟩ <;> simp [sendFoods]

theorem sendRequests_ne_status (db : Db) (r : Except Failure (JsVal × List Doc)) (code : Nat)
    (msg : String) : (sendRequests db r).1 ≠ .status code msg := by
  rcases r with e | ⟨v, l⟩ <;> simp [sendRequests]

theorem handler_ne_401 (route : Route) (env : Env) (db : Db) (req : Request) (msg : String) :
    (handler route env db req).1 ≠ .status 401 msg := by
  cases route <;> simp only [handler]
  · unfold postJwt; split <;> simp
  · simp [getLogout]
  · exact sendDocs_ne_status _ _ _ _
  · unfold getAllFoods; split <;> simp
  · unfold getFood; split
    · simp
    · exact sendOne_ne_status _ _ _ _
  · simp only [postFoods]; split
    · simp
    · exact sendFoods_ne_status _ _ _ _
  · unfold patchRequestFoods; split
    · simp
    · exact sendFoods_ne_status _ _ _ _
  · simp only [getFoodManage]; split
    · simp
    · exact sendDocs_ne_status _ _ _ _
  · unfold putUpdateFood; split
    · simp
    · exact sendFoods_ne_status _ _ _ _
  · unfold deleteFood; split
    · simp
    · exact sendFoods_ne_status _ _ _ _
  · simp only [getMyRequest]; split
    · simp
    · exact sendDocs_ne_status _ _ _ _
  · exact sendRequests_ne_status _ _ _ _
  · simp [getRoot]

/-- The session a request presents: the decoded payload of its `token` cookie
when the cookie is there and verifies. -/
theorem verifyToken_eq (env : Env) (req : Request) :
    verifyToken env req =
      match req.token with
      | none => .respond (.status 401 "Unauthorized access!")
      | some t =>
        match jwtVerify env.SECRET_KEY req.now t with
        | none => .respond (.status 401 (if t.falsy then "Unauthorized access!" else "Unauthorized access."))
        | some decoded => .next { req with user := some decoded } := by
  unfold verifyToken
  cases ht : req.token with
  | none => rfl
  | some t =>
    simp only
    by_cases hf : t.falsy = true
    · simp [hf, jwtVerify_of_falsy _ _ t hf]
    · simp [hf]

theorem getField_setField (d : Doc) (k k' : String) (v : JsVal) :
    getField (setField d k v) k' = if k = k' then v else getField d k' := by
  induction d with
  | nil => simp [setField, getField]
  | cons kv rest ih =>
    obtain ⟨k0, w⟩ := kv
    by_cases h0 : k0 = k
    · subst h0
      by_cases h1 : k0 = k' <;> simp [setField, getField, h1]
    · by_cases h1 : k0 = k'
      · subst h1
        have : ¬ k = k0 := fun h => h0 h.symm
        simp [setField, getField, h0, this]
      · simp [setField, getField, h0, h1, ih]

theorem find_eq_unsorted (rx : Engine) (path : List String) (v : JsVal)
    (coll : List Doc) :
    find rx [(path, .eq v)] none coll
      = .ok (coll.filter fun d => pathAny (fun x => x.beq v) path (.obj d)) := by
  simp [find, queryTest, condTest]

theorem serve_of_verified (env : Env) (db : Db) (req : Request) (t : Token) (decoded : Doc)
    (hg : gated req.route = true) (ht : req.token = some t)
    (hv : jwtVerify env.SECRET_KEY req.now t = some decoded) :
    serve env db req = handler req.route env db { req with user := some decoded } := by
  simp [serve, hg, verifyToken_eq, ht, hv]

/-- C2. On a route registered with `verifyToken`, the answer is 401 exactly when
the `token` cookie is absent or fails verification; in that case the
middleware itself answers and the store is untouched.  Otherwise the handler
runs on the request with `req.user` set to the decoded payload. -/
theorem verifyToken_unauthorized_iff (env : Env) (db : Db) (req : Request)
    (hg : gated req.route = true) :
    ((∃ msg, (serve env db req).1 = .status 401 msg) ↔
        (req.token = none ∨
          ∃ t, req.token = some t ∧ jwtVerify env.SECRET_KEY req.now t = none)) ∧
    ((req.token = none ∨ ∃ t, req.token = some t ∧ jwtVerify env.SECRET_KEY req.now t = none) →
        ∃ msg, verifyToken env req = .respond (.status 401 msg) ∧
          serve env db req = (.status 401 msg, db)) ∧
    (∀ t decoded, req.token = some t → jwtVerify env.SECRET_KEY req.now t = some decoded →
        verifyToken env req = .next { req with user := some decoded } ∧
        serve env db req = handler req.route env db { req with user := some decoded }) := by
  have fails : (req.token = none ∨
      ∃ t, req.token = some t ∧ jwtVerify env.SECRET_KEY req.now t = none) →
      ∃ msg, verifyToken env req = .respond (.status 401 msg) ∧
        serve env db req = (.status 401 msg, db) := by
    rintro (h | ⟨t, ht, hv⟩)
    · exact ⟨"Unauthorized access!", by simp [verifyToken_eq, h],
        by simp [serve, hg, verifyToken_eq, h]⟩
    · exact ⟨if t.falsy then "Unauthorized access!" else "Unauthorized access.",
        by simp only [verifyToken_eq, ht, hv], by simp [serve, hg, verifyToken_eq, ht, hv]⟩
  refine ⟨⟨?_, fun h => ?_⟩, fails, fun t decoded ht hv => ⟨?_, serve_of_verified env db req t decoded hg ht hv⟩⟩
  · rintro ⟨msg, hmsg⟩
    cases ht : req.token with
    | none => exact Or.inl rfl
    | some t =>
      cases hv : jwtVerify env.SECRET_KEY req.now t with
      | none => exact Or.inr ⟨t, rfl, hv⟩
      | some decoded =>
        rw [serve_of_verified env db req t decoded hg ht hv] at hmsg
        exact absurd hmsg (handler_ne_401 _ _ _ _ _)
  · obtain ⟨msg, -, hs⟩ := fails h
    exact ⟨msg, by rw [hs]⟩
  · simp [verifyToken_eq, ht, hv]

/-- C1. With a valid session whose payload carries the email `c`, each
ownership-gated route compares `c` with the target email `e` (the path
parameter of `GET /food-manage/:email` and `GET /my-request/:email`, the
body's `donator.donatorEmail` for `POST /foods`): when they are equal the
answer is the result of the store call, when they differ it is
403 "Forbidden access" and the store is untouched. -/
theorem ownership_gate (env : Env) (db : Db) (req : Request) (t : Token) (claim : Doc)
    (c e : String) (ht : req.token = some t)
    (hv : jwtVerify env.SECRET_KEY req.now t = some claim)
    (hc : getField claim "email" = .str c) :
    (req.route = .getFoodManage → req.param = e →
      serve env db req =
        if c = e then
          (.send (.arr ((db.foodCollection.filter fun d =>
            pathAny (fun x => x.beq (.str e)) ["donator", "donatorEmail"] (.obj d)).map .obj)), db)
        else (.status 403 "Forbidden access", db)) ∧
    (req.route = .getMyRequest → req.param = e →
      serve env db req =
        if c = e then
          (.send (.arr ((db.foodRequestCollection.filter fun d =>
            pathAny (fun x => x.beq (.str e)) ["userEmail"] (.obj d)).map .obj)), db)
        else (.status 403 "Forbidden access", db)) ∧
    (req.route = .postFoods →
      prop (prop (.obj req.body) "donator") "donatorEmail" = .str e →
      serve env db req =
        if c = e then sendFoods db (insertOne req.gen req.body db.foodCollection)
        else (.status 403 "Forbidden access", db)) := by
  refine ⟨fun hr he => ?_, fun hr he => ?_, fun hr he => ?_⟩
  · rw [serve_of_verified env db req t claim (by rw [hr]; rfl) ht hv, hr]
    simp only [handler, getFoodManage, decodedEmail, hc, he, strictEq_str, find_eq_unsorted,
      sendDocs]
    by_cases h : c = e <;> simp [h]
  · rw [serve_of_verified env db req t claim (by rw [hr]; rfl) ht hv, hr]
    simp only [handler, getMyRequest, decodedEmail, hc, he, strictEq_str, find_eq_unsorted,
      sendDocs]
    by_cases h : c = e <;> simp [h]
  · rw [serve_of_verified env db req t claim (by rw [hr]; rfl) ht hv, hr]
    simp only [handler, postFoods, decodedEmail, hc, he, strictEq_str]
    by_cases h : c = e <;> simp [h]

/-- C10. The ownership check of `POST /foods` also passes when both sides are
absent: a session obtained from `POST /jwt` with a body that has no `email`
(and no registered claim of its own) lets an item without `donator` through to
`insertOne`, at any time within the token's 365 days. -/
theorem postFoods_absent_emails (env : Env) (db : Db) (login post : Request)
    (hsecret : truthy env.SECRET_KEY = true)
    (hemail : getField login.body "email" = .undefined)
    (hiat : getField login.body "iat" = .undefined)
    (hexp : getField login.body "exp" = .undefined)
    (hnbf : getField login.body "nbf" = .undefined)
    (hroute : post.route = .postFoods)
    (hdonator : getField post.body "donator" = .undefined)
    (hto : (post.now : Int) < login.now + expiresIn) :
    ∃ token, postJwt env db login = (.cookie token env.production (sameSite env), db) ∧
      ∀ user,
        serve env db { post with token := some token, user := user } =
          sendFoods db (insertOne post.gen post.body db.foodCollection) ∧
        (serve env db { post with token := some token, user := user }).1
          ≠ .status 403 "Forbidden access" := by
  have hsign : jwtSign env.SECRET_KEY login.now login.body =
      some (.signed env.SECRET_KEY (setField (setField login.body "iat" (.num login.now)) "exp"
        (.num (login.now + expiresIn)))) := by
    simp [jwtSign, hsecret, claimOk, hiat, hexp, hnbf]
  refine ⟨_, by rw [postJwt, hsign], fun user => ?_⟩
  have hverify : jwtVerify env.SECRET_KEY post.now
      (.signed env.SECRET_KEY (setField (setField login.body "iat" (.num login.now)) "exp"
        (.num (login.now + expiresIn)))) =
      some (setField (setField login.body "iat" (.num login.now)) "exp"
        (.num (login.now + expiresIn))) := by
    simp [jwtVerify, hsecret, getField_setField, hnbf, hto]
  have hserve : serve env db { post with
      token := some (.signed env.SECRET_KEY
        (setField (setField login.body "iat" (.num login.now)) "exp"
          (.num (login.now + expiresIn)))),
      user := user } =
      sendFoods db (insertOne post.gen post.body db.foodCollection) := by
    rw [serve_of_verified env db { post with token := some _, user := user } _ _
      (by simp [hroute, gated]) rfl hverify]
    simp [hroute, handler, postFoods, decodedEmail, getField_setField, hemail, prop, hdonator,
      strictEq]
  exact ⟨hserve, by rw [hserve]; exact sendFoods_ne_status _ _ _ _⟩

/-! ## Sorting -/

theorem insertBy_perm {α : Type} (le : α → α → Bool) (a : α) (l : List α) :
    (insertBy le a l).Perm (a :: l) := by
  induction l with
  | nil => exact List.Perm.refl _
  | cons b l ih =>
    by_cases h : le a b = true
    · simp [insertBy, h]
    · simp only [insertBy, h]
      exact ((List.Perm.cons b ih).trans (List.Perm.swap a b l))

theorem sortBy_perm {α : Type} (le : α → α → Bool) (l : List α) : (sortBy le l).Perm l := by
  induction l with
  | nil => exact List.Perm.refl _
  | cons a l ih => exact (insertBy_perm le a _).trans (List.Perm.cons a ih)

theorem mem_sortBy {α : Type} (le : α → α → Bool) (l : List α) (x : α) :
    x ∈ sortBy le l ↔ x ∈ l :=
  (sortBy_perm le l).mem_iff

theorem insertBy_pairwise {α : Type} (le : α → α → Bool) (a : α) (l : List α)
    (total : ∀ b ∈ l, le a b = true ∨ le b a = true)
    (trans : ∀ b ∈ l, ∀ c ∈ l, le a b = true → le b c = true → le a c = true)
    (hl : l.Pairwise (fun x y => le x y = true)) :
    (insertBy le a l).Pairwise (fun x y => le x y = true) := by
  induction l with
  | nil => simp [insertBy]
  | cons b l ih =>
    rw [List.pairwise_cons] at hl
    by_cases h : le a b = true
    · simp only [insertBy, h, if_true]
      refine List.pairwise_cons.2 ⟨fun y hy => ?_, List.pairwise_cons.2 hl⟩
      rcases List.mem_cons.1 hy with rfl | hy
      · exact h
      · exact trans b (List.mem_cons_self _ _) y (List.mem_cons_of_mem _ hy) h (hl.1 y hy)
    · simp only [insertBy, h]
      refine List.pairwise_cons.2 ⟨fun y hy => ?_,
        ih (fun c hc => total c (List.mem_cons_of_mem _ hc))
          (fun c hc e he => trans c (List.mem_cons_of_mem _ hc) e (List.mem_cons_of_mem _ he))
          hl.2⟩
      rcases List.mem_cons.1 ((insertBy_perm le a l).mem_iff.1 hy) with rfl | hy
      · exact (total b (List.mem_cons_self _ _)).resolve_left h
      · exact hl.1 y hy

theorem sortBy_pairwise {α : Type} (le : α → α → Bool) (l : List α)
    (total : ∀ a ∈ l, ∀ b ∈ l, le a b = true ∨ le b a = true)
    (trans : ∀ a ∈ l, ∀ b ∈ l, ∀ c ∈ l, le a b = true → le b c = true → le a c = true) :
    (sortBy le l).Pairwise (fun x y => le x y = true) := by
  induction l with
  | nil => simp [sortBy]
  | cons a l ih =>
    have hin : ∀ x, x ∈ sortBy le l → x ∈ a :: l := fun x hx =>
      List.mem_cons_of_mem _ ((mem_sortBy le l x).1 hx)
    exact insertBy_pairwise le a _
      (fun b hb => total a (List.mem_cons_self _ _) b (hin b hb))
      (fun b hb c hc => trans a (List.mem_cons_self _ _) b (hin b hb) c (hin c hc))
      (ih (fun x hx y hy => total x (List.mem_cons_of_mem _ hx) y (List.mem_cons_of_mem _ hy))
        (fun x hx y hy z hz => trans x (List.mem_cons_of_mem _ hx) y
          (List.mem_cons_of_mem _ hy) z (List.mem_cons_of_mem _ hz)))

/-! ## Reading the foods collection -/

theorem pathAny_top (p : JsVal → Bool) (k : String) (d : Doc) :
    pathAny p [k] (.obj d) = true ↔
      p (getField d k) = true ∨ ∃ xs, getField d k = .arr xs ∧ ∃ x ∈ xs, p x = true := by
  simp only [pathAny]
  cases h : getField d k <;> simp

theorem find_ok_mem (rx : Engine) (query : Query)
    (sort : Option (String × JsVal)) (coll result : List Doc)
    (h : find rx query sort coll = .ok result) :
    ∃ test, queryTest rx query = some test ∧
      ∀ d, d ∈ result ↔ (d ∈ coll ∧ test d = true) := by
  unfold find at h
  cases hq : queryTest rx query with
  | none => simp [hq] at h
  | some test =>
    refine ⟨test, rfl, ?_⟩
    simp only [hq] at h
    cases sort with
    | none =>
      simp only [Except.ok.injEq] at h
      subst h
      intro d; simp
    | some kd =>
      obtain ⟨key, direction⟩ := kd
      simp only at h
      cases hd : sortDirection direction with
      | none => simp [hd] at h
      | some dir =>
        simp only [hd, Except.ok.injEq] at h
        subst h
        intro d; simp [mem_sortBy]

theorem sendDocs_eq_send (db : Db) (r : Except Failure (List Doc)) (items : List JsVal)
    (h : (sendDocs db r).1 = .send (.arr items)) :
    ∃ result, r = .ok result ∧ items = result.map .obj := by
  cases r with
  | error e => simp [sendDocs] at h
  | ok result => exact ⟨result, rfl, by simpa [sendDocs, eq_comm] using h⟩

theorem queryTest_eq_cons (rx : Engine) (path : List String) (v : JsVal) (rest : Query) :
    queryTest rx ((path, .eq v) :: rest) =
      (queryTest rx rest).map fun r d => pathAny (fun x => x.beq v) path (.obj d) && r d := by
  simp only [queryTest, condTest]
  cases queryTest rx rest <;> rfl

theorem foodsQuery_cons (search : Option String) :
    ∃ rest, foodsQuery search = (["status"], .eq (.str "available")) :: rest ∧
      (rest = [] ∨ ∃ s, search = some s ∧ truthy s = true ∧ rest = [(["name"], .regex s)]) := by
  unfold foodsQuery
  cases search with
  | none => exact ⟨[], rfl, Or.inl rfl⟩
  | some s =>
    by_cases h : truthy s = true
    · exact ⟨_, by simp [h], Or.inr ⟨s, rfl, h, rfl⟩⟩
    · exact ⟨[], by simp [h], Or.inl rfl⟩

theorem foodsQuery_status (rx : Engine) (search : Option String) (test : Doc → Bool)
    (h : queryTest rx (foodsQuery search) = some test) (d : Doc) (hd : test d = true) :
    pathAny (fun x => x.beq (.str "available")) ["status"] (.obj d) = true := by
  obtain ⟨rest, hq, -⟩ := foodsQuery_cons search
  rw [hq, queryTest_eq_cons] at h
  cases hr : queryTest rx rest with
  | none => simp [hr] at h
  | some r =>
    simp only [hr, Option.map_some', Option.some.injEq] at h
    subst h
    simp only [Bool.and_eq_true] at hd
    exact hd.1

theorem serve_ungated (env : Env) (db : Db) (req : Request) (h : gated req.route = false) :
    serve env db req = handler req.route env db req := by
  simp [serve, h]

/-- The sort parameter is one the driver accepts: absent, empty, `asc` or `dsc`. -/
theorem foodsSort_ok_iff (sort : Option String) :
    (∀ kv, foodsSort sort = some kv → sortDirection kv.2 ≠ none) ↔
      ∀ s, sort = some s → truthy s = true → s = "asc" ∨ s = "dsc" := by
  cases sort with
  | none => simp [foodsSort]
  | some s =>
    by_cases ht : truthy s = true
    · by_cases h1 : s = "asc"
      · subst h1; simp [foodsSort, sortValue, sortDirection, truthy]
      · by_cases h2 : s = "dsc"
        · subst h2; simp [foodsSort, sortValue, sortDirection, truthy]
        · simp [foodsSort, sortValue, sortDirection, ht, h1, h2]
    · simp [foodsSort, ht]

/-- The search term is one the server accepts: absent, empty, or a pattern that
compiles. -/
theorem foodsQuery_ok_iff (rx : Engine) (search : Option String) :
    queryTest rx (foodsQuery search) ≠ none ↔
      ∀ p, search = some p → truthy p = true → compile rx p ≠ none := by
  have hplain : queryTest rx [(["status"], .eq (.str "available"))] ≠ none := by
    rw [queryTest_eq_cons]; simp [queryTest]
  cases search with
  | none => simpa [foodsQuery] using hplain
  | some p =>
    by_cases ht : truthy p = true
    · simp only [foodsQuery, ht, if_true]
      rw [queryTest_eq_cons]
      simp only [queryTest, condTest]
      cases hc : compile rx p <;> simp [ht, hc]
    · simpa [foodsQuery, ht] using hplain

theorem find_ok_iff (rx : Engine) (query : Query) (sort : Option (String × JsVal))
    (coll : List Doc) :
    (∃ result, find rx query sort coll = .ok result) ↔
      queryTest rx query ≠ none ∧ ∀ kv, sort = some kv → sortDirection kv.2 ≠ none := by
  unfold find
  cases queryTest rx query with
  | none => simp
  | some test =>
    cases sort with
    | none => simp
    | some kv =>
      obtain ⟨key, direction⟩ := kv
      cases h : sortDirection direction <;> simp [h]

theorem getFoods_answers_iff (env : Env) (db : Db) (req : Request)
    (hroute : req.route = .getFoods) :
    (∃ items, (serve env db req).1 = .send (.arr items)) ↔
      (∀ s, req.sort = some s → truthy s = true → s = "asc" ∨ s = "dsc") ∧
        ∀ p, req.search = some p → truthy p = true → compile env.regex p ≠ none := by
  rw [serve_ungated env db req (by rw [hroute]; rfl), hroute, ← foodsSort_ok_iff,
    ← foodsQuery_ok_iff, and_comm, ← find_ok_iff _ _ _ db.foodCollection]
  simp only [handler, getFoods]
  constructor
  · rintro ⟨items, h⟩
    obtain ⟨result, hres, -⟩ := sendDocs_eq_send _ _ _ h
    exact ⟨result, hres⟩
  · rintro ⟨result, hres⟩
    exact ⟨result.map .obj, by rw [hres]; rfl⟩

/-- C3, as amended. `GET /foods` answers for every combination of parameters
the store accepts (a sort that is absent, empty, `asc` or `dsc`; a search that
is absent, empty or a regular expression the server compiles) and throws for
the others.  Every item of an answer is a document of the foods collection
whose `status` is `"available"` or an array with `"available"` among its
elements. -/
theorem getFoods_status (env : Env) (db : Db) (req : Request)
    (hroute : req.route = .getFoods) :
    ((∃ items, (serve env db req).1 = .send (.arr items)) ↔
      (∀ s, req.sort = some s → truthy s = true → s = "asc" ∨ s = "dsc") ∧
        ∀ p, req.search = some p → truthy p = true → compile env.regex p ≠ none) ∧
    ∀ items, (serve env db req).1 = .send (.arr items) →
      ∀ it ∈ items, ∃ d, it = .obj d ∧ d ∈ db.foodCollection ∧
        (getField d "status" = .str "available" ∨
          ∃ xs, getField d "status" = .arr xs ∧ .str "available" ∈ xs) := by
  refine ⟨getFoods_answers_iff env db req hroute, fun items h => ?_⟩
  rw [serve_ungated env db req (by rw [hroute]; rfl), hroute] at h
  obtain ⟨result, hres, rfl⟩ := sendDocs_eq_send _ _ _ h
  obtain ⟨test, hq, hmem⟩ := find_ok_mem _ _ _ _ _ hres
  intro it hit
  obtain ⟨d, hd, rfl⟩ := List.mem_map.1 hit
  obtain ⟨hcoll, htest⟩ := (hmem d).1 hd
  refine ⟨d, rfl, hcoll, ?_⟩
  rcases (pathAny_top _ _ _).1 (foodsQuery_status _ _ _ hq d htest) with
    h1 | ⟨xs, hxs, x, hx, h2⟩
  · exact Or.inl (JsVal.eq_of_beq _ _ h1)
  · exact Or.inr ⟨xs, hxs, (JsVal.eq_of_beq _ _ h2) ▸ hx⟩

/-- C3, witness: the search `Ri+ce|a*` with `sort=dsc` on a store holding `rice`,
the array-status item `listed` and an item that is not available. -/
theorem getFoods_status_witness :
    ({ sampleReq with search := some "Ri+ce|a*", sort := some "dsc" } : Request).route
      = .getFoods ∧
    (serve sampleEnv ⟨[rice, listed, [("name", .str "Stew"), ("status", .str "requested")]], []⟩
        { sampleReq with search := some "Ri+ce|a*", sort := some "dsc" }).1
      = .send (.arr [.obj rice, .obj listed]) ∧
    ∀ it ∈ [JsVal.obj rice, JsVal.obj listed], ∃ d, it = .obj d ∧
      d ∈ [rice, listed, [("name", .str "Stew"), ("status", .str "requested")]] ∧
      (getField d "status" = .str "available" ∨
        ∃ xs, getField d "status" = .arr xs ∧ .str "available" ∈ xs) :=
  ⟨rfl, rfl,
    (getFoods_status sampleEnv ⟨[rice, listed, [("name", .str "Stew"), ("status", .str "requested")]], []⟩
      { sampleReq with search := some "Ri+ce|a*", sort := some "dsc" } rfl).2 _ rfl⟩

/-- C3, counterexample: a stored item whose status is the array
`["available", "fresh"]` matches the query `{ status: "available" }` and is returned,
although its status is not equal to `"available"`. -/
theorem getFoods_status_counterexample :
    (serve sampleEnv ⟨[listed], []⟩ sampleReq).1 = .send (.arr [.obj listed]) ∧
    getField listed "status" ≠ .str "available" :=
  ⟨rfl, by simp [listed, getField]⟩

/-! ## Searching by name -/

theorem rxParse_ordinary (cs : List Char) (h : ∀ c ∈ cs, ordinary c = true) :
    rxParse cs = some (cs.map .lit) := by
  induction cs with
  | nil => rfl
  | cons c cs ih =>
    have hc := h c (List.mem_cons_self _ _)
    simp only [ordinary, Bool.and_eq_true, Bool.not_eq_true', decide_eq_true_eq] at hc
    have hdot : c ≠ '.' := by
      rintro rfl
      exact absurd hc.1 (by decide)
    have h128 : ¬ 128 ≤ c.toNat := by omega
    have hmeta : c ∉ rxMeta := by simpa using hc.1
    simp [rxParse, ih (fun x hx => h x (List.mem_cons_of_mem _ hx)), hdot, hmeta, h128]

theorem rxMatchHere_lit (cs subject : List Char) :
    rxMatchHere (cs.map .lit) subject = true ↔
      List.IsPrefix (cs.map Char.toLower) (subject.map Char.toLower) := by
  induction cs generalizing subject with
  | nil => simp [rxMatchHere]
  | cons c cs ih =>
    cases subject with
    | nil => simp [rxMatchHere]
    | cons x xs =>
      simp only [List.map_cons, rxMatchHere, RxAtom.accepts, Bool.and_eq_true, beq_iff_eq, ih,
        List.cons_prefix_cons]

theorem rxSearch_lit (cs subject : List Char) :
    rxSearch (cs.map .lit) subject = true ↔
      List.IsInfix (cs.map Char.toLower) (subject.map Char.toLower) := by
  induction subject with
  | nil =>
    simp only [rxSearch, rxMatchHere_lit, List.map_nil, List.prefix_nil, List.infix_nil]
  | cons x xs ih =>
    simp only [rxSearch, Bool.or_eq_true, rxMatchHere_lit, ih, List.map_cons,
      List.infix_cons_iff]

theorem str_of_test (f : String → Bool) (x : JsVal)
    (h : (match x with
      | .str n => f n
      | _ => false) = true) : ∃ n, x = .str n ∧ f n = true := by
  cases x <;> simp_all

theorem foodsQuery_name (rx : Engine) (s : String) (hs : truthy s = true)
    (hord : ∀ c ∈ s.toList, ordinary c = true) (test : Doc → Bool)
    (h : queryTest rx (foodsQuery (some s)) = some test) (d : Doc) (hd : test d = true) :
    pathAny (fun x => match x with
      | .str n => rxSearch (s.toList.map .lit) n.toList
      | _ => false) ["name"] (.obj d) = true := by
  simp only [foodsQuery, hs, if_true, queryTest_eq_cons, queryTest, condTest, compile,
    rxParse_ordinary _ hord, Option.map_some', Option.some.injEq] at h
  subst h
  simp only [Bool.and_eq_true] at hd
  exact hd.2.1

/-- C4, as amended. When the search term consists of ordinary characters only
(ASCII, none of the regular expression metacharacters), every item
`GET /foods?search=s` returns has a name that contains `s` without regard to
letter case, or an array-valued name one of whose strings does.  (A term with
metacharacters is read as a regular expression.) -/
theorem getFoods_search (env : Env) (db : Db) (req : Request) (s : String)
    (items : List JsVal) (hroute : req.route = .getFoods) (hsearch : req.search = some s)
    (hs : truthy s = true) (hord : ∀ c ∈ s.toList, ordinary c = true)
    (h : (serve env db req).1 = .send (.arr items)) :
    ∀ it ∈ items, ∃ d, it = .obj d ∧ d ∈ db.foodCollection ∧
      ((∃ n, getField d "name" = .str n ∧ containsCI n s) ∨
        ∃ xs n, getField d "name" = .arr xs ∧ .str n ∈ xs ∧ containsCI n s) := by
  rw [serve_ungated env db req (by rw [hroute]; rfl), hroute] at h
  obtain ⟨result, hres, rfl⟩ := sendDocs_eq_send _ _ _ h
  obtain ⟨test, hq, hmem⟩ := find_ok_mem _ _ _ _ _ hres
  rw [hsearch] at hq
  intro it hit
  obtain ⟨d, hd, rfl⟩ := List.mem_map.1 hit
  obtain ⟨hcoll, htest⟩ := (hmem d).1 hd
  refine ⟨d, rfl, hcoll, ?_⟩
  rcases (pathAny_top _ _ _).1 (foodsQuery_name _ s hs hord test hq d htest) with
    h1 | ⟨xs, hxs, x, hx, h2⟩
  · obtain ⟨n, hn, hsearch⟩ := str_of_test _ _ h1
    exact Or.inl ⟨n, hn, (rxSearch_lit _ _).1 hsearch⟩
  · obtain ⟨n, rfl, hsearch⟩ := str_of_test _ _ h2
    exact Or.inr ⟨xs, n, hxs, hx, (rxSearch_lit _ _).1 hsearch⟩

/-- C4, witness: searching `rIc` in the sample collection. -/
theorem getFoods_search_witness :
    ({ sampleReq with search := some "rIc" } : Request).route = .getFoods ∧
    truthy "rIc" = true ∧ (∀ c ∈ "rIc".toList, ordinary c = true) ∧
    (serve sampleEnv ⟨[rice], []⟩ { sampleReq with search := some "rIc" }).1
      = .send (.arr [.obj rice]) ∧
    ∀ it ∈ [JsVal.obj rice], ∃ d, it = .obj d ∧ d ∈ [rice] ∧
      ((∃ n, getField d "name" = .str n ∧ containsCI n "rIc") ∨
        ∃ xs n, getField d "name" = .arr xs ∧ .str n ∈ xs ∧ containsCI n "rIc") :=
  ⟨rfl, rfl, by decide, rfl,
    getFoods_search sampleEnv ⟨[rice], []⟩ { sampleReq with search := some "rIc" } "rIc"
      [.obj rice] rfl rfl rfl (by decide) rfl⟩

/-- C4, counterexample: the search term `.` is a pattern matching any character,
so `GET /foods?search=.` returns the item named `Rice`, whose name does not
contain a dot. -/
theorem getFoods_search_counterexample :
    truthy "." = true ∧
    (serve sampleEnv ⟨[rice], []⟩ { sampleReq with search := some "." }).1
      = .send (.arr [.obj rice]) ∧
    getField rice "name" = .str "Rice" ∧ ¬ containsCI "Rice" "." :=
  ⟨rfl, rfl, rfl, by unfold containsCI; decide⟩

/-! ## Sorting by expiry date -/

theorem lexLe_total : ∀ a b : List Int, lexLe a b = true ∨ lexLe b a = true
  | [], _ => Or.inl rfl
  | _ :: _, [] => Or.inr rfl
  | x :: xs, y :: ys => by
    simp only [lexLe, Bool.or_eq_true, decide_eq_true_eq, Bool.and_eq_true, beq_iff_eq]
    rcases lt_trichotomy x y with h | h | h
    · exact Or.inl (Or.inl h)
    · rcases lexLe_total xs ys with h' | h'
      · exact Or.inl (Or.inr ⟨h, h'⟩)
      · exact Or.inr (Or.inr ⟨h.symm, h'⟩)
    · exact Or.inr (Or.inl h)

theorem lexLe_trans : ∀ a b c : List Int,
    lexLe a b = true → lexLe b c = true → lexLe a c = true
  | [], _, _ => fun _ _ => rfl
  | _ :: _, [], _ => fun h _ => by simp [lexLe] at h
  | _ :: _, _ :: _, [] => fun _ h => by simp [lexLe] at h
  | x :: xs, y :: ys, z :: zs => by
    simp only [lexLe, Bool.or_eq_true, decide_eq_true_eq, Bool.and_eq_true, beq_iff_eq]
    rintro (h1 | ⟨h1, h1'⟩) (h2 | ⟨h2, h2'⟩)
    · exact Or.inl (lt_trans h1 h2)
    · exact Or.inl (h2 ▸ h1)
    · exact Or.inl (h1 ▸ h2)
    · exact Or.inr ⟨h1.trans h2, lexLe_trans xs ys zs h1' h2'⟩

theorem before_total (dir : Int) (x y : JsVal) :
    before dir x y = true ∨ before dir y x = true := by
  unfold before
  split
  · exact lexLe_total _ _
  · exact lexLe_total _ _

theorem before_trans (dir : Int) (x y z : JsVal) (h1 : before dir x y = true)
    (h2 : before dir y z = true) : before dir x z = true := by
  by_cases hd : dir = 1
  · simp only [before, hd, if_true] at h1 h2 ⊢
    exact lexLe_trans _ _ _ h1 h2
  · simp only [before, hd, if_false] at h1 h2 ⊢
    exact lexLe_trans _ _ _ h2 h1

/-- C5, as amended. For `sort=asc` the sort option handed to the store is
`{ expiredDate: 1 }` and for `sort=dsc` it is `{ expiredDate: -1 }`.  The request is
answered unless the search term is a pattern the server rejects, and the items
of the answer are in the store's ascending, respectively descending, order of
their `expiredDate` values (numbers by value, strings by code point, values of
different types by type, an array by its least, respectively greatest,
element). -/
theorem getFoods_sort (env : Env) (db : Db) (req : Request) (s : String)
    (hroute : req.route = .getFoods) (hsort : req.sort = some s)
    (hs : s = "asc" ∨ s = "dsc") :
    foodsSort req.sort = some ("expiredDate", .num (if s = "asc" then 1 else -1)) ∧
    serve env db req =
      sendDocs db (find env.regex (foodsQuery req.search)
        (some ("expiredDate", .num (if s = "asc" then 1 else -1))) db.foodCollection) ∧
    ((∀ p, req.search = some p → truthy p = true → compile env.regex p ≠ none) →
      ∃ items, (serve env db req).1 = .send (.arr items)) ∧
    ∀ items, (serve env db req).1 = .send (.arr items) →
      ∃ result : List Doc, items = result.map .obj ∧
        result.Pairwise fun a b =>
          before (if s = "asc" then 1 else -1)
            (getField a "expiredDate") (getField b "expiredDate") = true := by
  have hopt : foodsSort req.sort = some ("expiredDate", .num (if s = "asc" then 1 else -1)) := by
    rcases hs with rfl | rfl <;> simp [hsort, foodsSort, truthy, sortValue]
  have hdir : sortDirection (.num (if s = "asc" then 1 else -1))
      = some (if s = "asc" then 1 else -1) := by
    rcases hs with rfl | rfl <;> simp [sortDirection]
  have hserve : serve env db req =
      sendDocs db (find env.regex (foodsQuery req.search)
        (some ("expiredDate", .num (if s = "asc" then 1 else -1))) db.foodCollection) := by
    rw [serve_ungated env db req (by rw [hroute]; rfl), hroute]
    simp only [handler, getFoods, hopt]
  refine ⟨hopt, hserve, fun hsearch => ?_, fun items h => ?_⟩
  · refine (getFoods_answers_iff env db req hroute).2 ⟨fun s' hs' _ => ?_, hsearch⟩
    rw [hsort] at hs'
    exact (Option.some.inj hs') ▸ hs
  · rw [hserve] at h
    obtain ⟨result, hres, rfl⟩ := sendDocs_eq_send _ _ _ h
    refine ⟨result, rfl, ?_⟩
    unfold find at hres
    cases hq : queryTest env.regex (foodsQuery req.search) with
    | none => simp [hq] at hres
    | some test =>
      simp only [hq, hdir, Except.ok.injEq] at hres
      subst hres
      exact sortBy_pairwise
        (fun a b : Doc => before (if s = "asc" then 1 else -1)
          (getField a "expiredDate") (getField b "expiredDate")) _
        (fun a _ b _ => before_total _ _ _) (fun a _ b _ c _ => before_trans _ _ _ _)

/-- C5, counterexample: `sort=desc` is a given sort parameter, yet the sort option
is `{ expiredDate: false }`, which the driver rejects. -/
theorem getFoods_sort_counterexample :
    truthy "desc" = true ∧
    foodsSort (some "desc") = some ("expiredDate", .bool false) ∧
    (serve sampleEnv ⟨[rice], []⟩ { sampleReq with sort := some "desc" }).1
      = .failure .invalidSort :=
  ⟨rfl, rfl, rfl⟩

/-! ## The feature route -/

theorem notAfter_iff (a b : Doc) (x y : Int) (ha : quantity a = some x)
    (hb : quantity b = some y) : notAfter a b = true ↔ y ≤ x := by
  unfold quantity at ha hb
  simp [notAfter, compareFn, ha, hb]

theorem featured_spec (coll : List Doc) (hsafe : ∀ d ∈ coll, safeQuantity d) :
    (featured coll).length = min 6 coll.length ∧
    (featured coll ++ (sortBy notAfter coll).drop 6).Perm coll ∧
    (featured coll).Pairwise quantityGe ∧
    ∀ a ∈ featured coll, ∀ b ∈ (sortBy notAfter coll).drop 6, quantityGe a b := by
  have hsorted : (sortBy notAfter coll).Pairwise quantityGe := by
    refine (sortBy_pairwise notAfter coll ?_ ?_).imp_of_mem ?_
    · intro a ha b hb
      obtain ⟨x, hx, -⟩ := hsafe a ha
      obtain ⟨y, hy, -⟩ := hsafe b hb
      rw [notAfter_iff a b x y hx hy, notAfter_iff b a y x hy hx]
      omega
    · intro a ha b hb c hc
      obtain ⟨x, hx, -⟩ := hsafe a ha
      obtain ⟨y, hy, -⟩ := hsafe b hb
      obtain ⟨z, hz, -⟩ := hsafe c hc
      rw [notAfter_iff a b x y hx hy, notAfter_iff b c y z hy hz, notAfter_iff a c x z hx hz]
      omega
    · intro a b ha hb hab
      obtain ⟨x, hx, -⟩ := hsafe a ((mem_sortBy _ _ _).1 ha)
      obtain ⟨y, hy, -⟩ := hsafe b ((mem_sortBy _ _ _).1 hb)
      exact ⟨x, y, hx, hy, (notAfter_iff a b x y hx hy).1 hab⟩
  have hsplit : featured coll ++ (sortBy notAfter coll).drop 6 = sortBy notAfter coll :=
    List.take_append_drop 6 _
  refine ⟨?_, ?_, ?_, ?_⟩
  · simp [featured, List.length_take, (sortBy_perm notAfter coll).length_eq]
  · rw [hsplit]; exact sortBy_perm _ _
  · rw [← hsplit] at hsorted
    exact (List.pairwise_append.1 hsorted).1
  · rw [← hsplit] at hsorted
    exact (List.pairwise_append.1 hsorted).2.2

/-- C6, as amended. When `parseInt` reads an integer from the quantity of
every item of the foods collection (within the exactly representable range),
`GET /all-foods` returns `min(6, n)` items of the collection, listed in
descending order of that integer, and no omitted item has a greater such
integer than a returned one.  The integer is the leading integer part of the
quantity, so the order is by `parseInt(quantity)`, not by the full numeric
value. -/
theorem getAllFoods_featured (env : Env) (db : Db) (req : Request)
    (hroute : req.route = .getAllFoods)
    (hsafe : ∀ d ∈ db.foodCollection, safeQuantity d) :
    ∃ top rest : List Doc,
      serve env db req = (.send (.arr (top.map .obj)), db) ∧
      top.length = min 6 db.foodCollection.length ∧
      (top ++ rest).Perm db.foodCollection ∧
      top.Pairwise quantityGe ∧
      ∀ a ∈ top, ∀ b ∈ rest, quantityGe a b := by
  refine ⟨featured db.foodCollection, (sortBy notAfter db.foodCollection).drop 6, ?_,
    featured_spec _ hsafe⟩
  rw [serve_ungated env db req (by rw [hroute]; rfl), hroute]
  simp [handler, getAllFoods, find, queryTest]

/-- C6, counterexample: with an item whose quantity is not numeric the comparison
function is inconsistent, and the three items come back in the order 1, abc, 2:
quantity 2 is listed after quantity 1.  And since the comparison is on
`parseInt(quantity)`, six items of quantity 1.1 followed by one of quantity 1.9
all compare equal: the six are returned and the 1.9 is omitted. -/
theorem getAllFoods_featured_counterexample :
    ((serve sampleEnv ⟨[portion "1", portion "abc", portion "2"], []⟩
        { sampleReq with route := .getAllFoods }).1
      = .send (.arr [.obj (portion "1"), .obj (portion "abc"), .obj (portion "2")]) ∧
    quantity (portion "1") = some 1 ∧ quantity (portion "abc") = none ∧
    quantity (portion "2") = some 2) ∧
    ((serve sampleEnv ⟨List.replicate 6 (portion "1.1") ++ [portion "1.9"], []⟩
        { sampleReq with route := .getAllFoods }).1
      = .send (.arr (List.replicate 6 (.obj (portion "1.1")))) ∧
    quantity (portion "1.1") = some 1 ∧ quantity (portion "1.9") = some 1) :=
  ⟨⟨rfl, rfl, rfl, rfl⟩, rfl, rfl, rfl⟩

/-! ## Documents and identifiers -/

theorem getField_of_not_hasField (d : Doc) (k : String) (h : hasField d k = false) :
    getField d k = .undefined := by
  induction d with
  | nil => rfl
  | cons kv rest ih =>
    obtain ⟨k0, w⟩ := kv
    simp only [hasField, List.any_cons, Bool.or_eq_false_iff, beq_eq_false_iff_ne] at h
    simp only [getField, h.1, if_false]
    exact ih h.2

theorem eraseField_of_not_hasField (d : Doc) (k : String) (h : hasField d k = false) :
    eraseField d k = d := by
  induction d with
  | nil => rfl
  | cons kv rest ih =>
    obtain ⟨k0, w⟩ := kv
    simp only [hasField, List.any_cons, Bool.or_eq_false_iff, beq_eq_false_iff_ne] at h
    simp only [eraseField, h.1, if_false]
    rw [ih h.2]

theorem queryTest_id (rx : Engine) (id : JsVal) :
    queryTest rx [(["_id"], .eq id)]
      = some fun d => pathAny (fun x => x.beq id) ["_id"] (.obj d) := by
  rw [queryTest_eq_cons]
  simp [queryTest]

theorem idTest_iff (id : JsVal) (d : Doc) (hd : ∀ xs, getField d "_id" ≠ .arr xs) :
    pathAny (fun x => x.beq id) ["_id"] (.obj d) = true ↔ getField d "_id" = id := by
  rw [pathAny_top]
  constructor
  · rintro (h | ⟨xs, hxs, -⟩)
    · exact JsVal.eq_of_beq _ _ h
    · exact absurd hxs (hd xs)
  · intro h
    exact Or.inl ((JsVal.beq_iff _ _).2 h)

theorem find?_append_of_none {α : Type} (p : α → Bool) (l : List α) (a : α)
    (h : ∀ x ∈ l, p x = false) (ha : p a = true) : (l ++ [a]).find? p = some a := by
  induction l with
  | nil => simp [ha]
  | cons b l ih =>
    simp only [List.cons_append, List.find?_cons, h b (List.mem_cons_self _ _)]
    exact ih fun x hx => h x (List.mem_cons_of_mem _ hx)

theorem serve_eq_send_gated (env : Env) (db : Db) (req : Request) (v : JsVal)
    (hg : gated req.route = true) (h : (serve env db req).1 = .send v) :
    ∃ t decoded, req.token = some t ∧ jwtVerify env.SECRET_KEY req.now t = some decoded ∧
      serve env db req = handler req.route env db { req with user := some decoded } := by
  cases ht : req.token with
  | none => simp [serve, hg, verifyToken_eq, ht] at h
  | some t =>
    cases hv : jwtVerify env.SECRET_KEY req.now t with
    | none => simp [serve, hg, verifyToken_eq, ht, hv] at h
    | some decoded =>
      exact ⟨t, decoded, rfl, hv, by rw [serve_of_verified env db req t decoded hg ht hv, ht]⟩

theorem sendFoods_eq_send (db : Db) (r : Except Failure (JsVal × List Doc)) (v : JsVal)
    (h : (sendFoods db r).1 = .send v) :
    ∃ foods, r = .ok (v, foods) ∧
      sendFoods db r = (.send v, { db with foodCollection := foods }) := by
  rcases r with e | ⟨w, foods⟩
  · simp [sendFoods] at h
  · simp only [sendFoods, Response.send.injEq] at h
    subst h
    exact ⟨foods, rfl, rfl⟩

theorem insertOne_fresh (gen : String) (doc : Doc) (coll : List Doc) (v : JsVal)
    (foods : List Doc) (hno : hasField doc "_id" = false)
    (h : insertOne gen doc coll = .ok (v, foods)) :
    v = .obj [("acknowledged", .bool true), ("insertedId", .oid gen)] ∧
    foods = coll ++ [("_id", .oid gen) :: doc] ∧
    ∀ d ∈ coll, getField d "_id" ≠ .oid gen := by
  simp only [insertOne, getField_of_not_hasField doc "_id" hno,
    eraseField_of_not_hasField doc "_id" hno] at h
  split at h
  · simp at h
  · simp only [Except.ok.injEq, Prod.mk.injEq] at h
    rename_i hany
    refine ⟨h.1.symm, h.2.symm, fun d hd hid => hany ?_⟩
    exact List.any_eq_true.2 ⟨d, hd, (JsVal.beq_iff _ _).2 hid⟩

/-- C7, as amended. When `POST /foods` accepts an item that brings no `_id` of
its own, the answer carries the generated identifier, and `GET /food/:id` with
that identifier then returns the submitted item with the identifier put in
front as `_id`. -/
theorem postFoods_then_getFood (env : Env) (db : Db) (post get : Request) (result : JsVal)
    (hwf : WellFormed db.foodCollection)
    (hroute : post.route = .postFoods)
    (haccepted : (serve env db post).1 = .send result)
    (hnoid : hasField post.body "_id" = false)
    (hgen : ObjectId post.gen = some (.oid post.gen))
    (hget : get.route = .getFood) (hparam : get.param = post.gen) :
    result = .obj [("acknowledged", .bool true), ("insertedId", .oid post.gen)] ∧
    (serve env (serve env db post).2 get).1
      = .send (.obj (("_id", .oid post.gen) :: post.body)) := by
  obtain ⟨t, decoded, -, -, hserve⟩ :=
    serve_eq_send_gated env db post result (by rw [hroute]; rfl) haccepted
  rw [hserve, hroute] at haccepted
  rw [hserve, hroute]
  simp only [handler, postFoods] at haccepted ⊢
  split at haccepted
  · simp at haccepted
  · rename_i hcheck
    simp only [hcheck]
    obtain ⟨foods, hins, hsend⟩ := sendFoods_eq_send _ _ _ haccepted
    obtain ⟨hres, hfoods, hfresh⟩ := insertOne_fresh _ _ _ _ _ hnoid hins
    refine ⟨hres, ?_⟩
    simp only [if_false, Bool.false_eq_true]
    rw [hsend, serve_ungated env _ get (by rw [hget]; rfl), hget]
    simp only [handler, getFood, hparam, hgen, findOne, queryTest_id, hfoods]
    rw [find?_append_of_none]
    · rfl
    · intro x hx
      have := idTest_iff (.oid post.gen) x (hwf.1 x hx)
      rw [Bool.eq_false_iff]
      intro h
      exact hfresh x hx (this.1 h)
    · simp [pathAny, getField, JsVal.beq]

/-- C7, counterexample: the item `labelled` brings the string `_id`
`"cccccccccccccccccccccccc"`; `POST /foods` accepts it and returns that string as
identifier, but `GET /food/cccccccccccccccccccccccc` looks for an ObjectId and
returns nothing. -/
theorem postFoods_then_getFood_counterexample :
    serve sampleEnv ⟨[], []⟩
        { sampleReq with route := .postFoods, body := labelled,
                         token := some (sampleToken "ann@x.org") }
      = (.send (.obj [("acknowledged", .bool true),
            ("insertedId", .str "cccccccccccccccccccccccc")]), ⟨[labelled], []⟩) ∧
    (serve sampleEnv ⟨[labelled], []⟩
        { sampleReq with route := .getFood, param := "cccccccccccccccccccccccc" }).1
      = .send .null :=
  ⟨rfl, rfl⟩

/-! ## Deleting and updating by identifier -/

theorem find?_removeFirst_self (test : Doc → Bool) (coll : List Doc)
    (huniq : coll.Pairwise fun a b => ¬ (test a = true ∧ test b = true)) :
    (removeFirst test coll).find? test = none := by
  induction coll with
  | nil => rfl
  | cons d l ih =>
    rw [List.pairwise_cons] at huniq
    by_cases h : test d = true
    · simp only [removeFirst, h, if_true]
      rw [List.find?_eq_none]
      intro x hx hxt
      exact huniq.1 x hx ⟨h, hxt⟩
    · have hf : test d = false := by simpa using h
      simp only [removeFirst, hf, List.find?_cons, Bool.false_eq_true, if_false]
      exact ih huniq.2

theorem find?_removeFirst_other (test other : Doc → Bool) (coll : List Doc)
    (hdisj : ∀ d ∈ coll, other d = true → test d = false) :
    (removeFirst test coll).find? other = coll.find? other := by
  induction coll with
  | nil => rfl
  | cons d l ih =>
    have ih' := ih fun x hx => hdisj x (List.mem_cons_of_mem _ hx)
    by_cases h : test d = true
    · have ho : other d = false := by
        cases hod : other d with
        | false => rfl
        | true => rw [hdisj d (List.mem_cons_self _ _) hod] at h; exact absurd h (by simp)
      simp [removeFirst, h, List.find?_cons, ho]
    · have hf : test d = false := by simpa using h
      simp [removeFirst, hf, List.find?_cons, ih']

theorem sendOne_fst (db db' : Db) (r : Except Failure JsVal) :
    (sendOne db r).1 = (sendOne db' r).1 := by
  cases r <;> rfl

theorem wellFormed_unique (coll : List Doc) (hwf : WellFormed coll) (id : JsVal) :
    coll.Pairwise fun a b =>
      ¬ (pathAny (fun x => x.beq id) ["_id"] (.obj a) = true ∧
        pathAny (fun x => x.beq id) ["_id"] (.obj b) = true) := by
  have h := hwf.2
  refine (List.Pairwise.and_mem.1 h).imp ?_
  rintro a b ⟨ha, hb, hne⟩ ⟨h1, h2⟩
  exact hne (((idTest_iff id a (hwf.1 a ha)).1 h1).trans ((idTest_iff id b (hwf.1 b hb)).1 h2).symm)

/-- C8. With a valid session, `DELETE /delete-food/:id` is answered with the
driver's result and leaves the requests alone; afterwards `GET /food/:id` with
the same identifier returns the empty result, and `GET /food/:id` with any
other identifier returns what it returned before. -/
theorem deleteFood_then_getFood (env : Env) (db : Db) (del : Request) (t : Token)
    (claim : Doc) (id : JsVal)
    (hwf : WellFormed db.foodCollection)
    (hroute : del.route = .deleteFood) (ht : del.token = some t)
    (hv : jwtVerify env.SECRET_KEY del.now t = some claim)
    (hid : ObjectId del.param = some id) :
    (∃ n, (serve env db del).1
        = .send (.obj [("acknowledged", .bool true), ("deletedCount", .num n)])) ∧
    (serve env db del).2.foodRequestCollection = db.foodRequestCollection ∧
    ∀ get : Request, get.route = .getFood →
      (ObjectId get.param = some id →
        (serve env (serve env db del).2 get).1 = .send .null) ∧
      (ObjectId get.param ≠ some id →
        (serve env (serve env db del).2 get).1 = (serve env db get).1) := by
  have hserve : serve env db del =
      (.send (.obj [("acknowledged", .bool true), ("deletedCount",
          .num (if db.foodCollection.any
            (fun d => pathAny (fun x => x.beq id) ["_id"] (.obj d)) then 1 else 0))]),
        { db with foodCollection := (removeFirst
            (fun d => pathAny (fun x => x.beq id) ["_id"] (.obj d))
            db.foodCollection) }) := by
    rw [serve_of_verified env db del t claim (by rw [hroute]; rfl) ht hv, hroute]
    simp only [handler, deleteFood, hid, deleteOne, queryTest_id, sendFoods]
  refine ⟨⟨_, by rw [hserve]⟩, by rw [hserve], fun get hget => ?_⟩
  rw [hserve, serve_ungated env _ get (by rw [hget]; rfl),
    serve_ungated env db get (by rw [hget]; rfl), hget]
  simp only [handler, getFood]
  refine ⟨fun hsame => ?_, fun hother => ?_⟩
  · simp only [hsame, findOne, queryTest_id]
    rw [find?_removeFirst_self _ _ (wellFormed_unique _ hwf id)]
    rfl
  · cases hpar : ObjectId get.param with
    | none => rfl
    | some id' =>
      have hne : id' ≠ id := fun h => hother (by rw [hpar, h])
      simp only [findOne, queryTest_id]
      rw [find?_removeFirst_other _ _ _ fun d hd hd' => by
        rw [Bool.eq_false_iff]
        intro hdel
        exact hne (((idTest_iff id' d (hwf.1 d hd)).1 hd').symm.trans
          ((idTest_iff id d (hwf.1 d hd)).1 hdel))]
      exact sendOne_fst _ _ _

theorem updateFirst_of_find?_none (test : Doc → Bool) (f : Doc → Doc) (coll : List Doc)
    (h : coll.find? test = none) : updateFirst test f coll = coll := by
  induction coll with
  | nil => rfl
  | cons d l ih =>
    rw [List.find?_cons] at h
    cases hd : test d with
    | true => simp [hd] at h
    | false =>
      simp only [hd] at h
      simp only [updateFirst, hd, Bool.false_eq_true, if_false, ih h]

theorem updateFirst_forall₂ (test : Doc → Bool) (f : Doc → Doc) (P : Doc → Prop)
    (coll : List Doc) (hP : ∀ d ∈ coll, P d)
    (huniq : coll.Pairwise fun a b => ¬ (test a = true ∧ test b = true)) :
    List.Forall₂ (fun d d' => P d ∧ (test d = true → d' = f d) ∧ (test d = false → d' = d))
      coll (updateFirst test f coll) := by
  induction coll with
  | nil => exact List.Forall₂.nil
  | cons d l ih =>
    rw [List.pairwise_cons] at huniq
    have hd0 := hP d (List.mem_cons_self _ _)
    have hl : ∀ x ∈ l, P x := fun x hx => hP x (List.mem_cons_of_mem _ hx)
    cases hd : test d with
    | true =>
      simp only [updateFirst, hd, if_true]
      refine List.Forall₂.cons ⟨hd0, fun _ => rfl, fun h => Bool.noConfusion (hd.symm.trans h)⟩ ?_
      refine List.forall₂_same.2 fun x hx => ⟨hl x hx, fun hxt => ?_, fun _ => rfl⟩
      exact absurd ⟨hd, hxt⟩ (huniq.1 x hx)
    | false =>
      simp only [updateFirst, hd, Bool.false_eq_true, if_false]
      exact List.Forall₂.cons ⟨hd0, fun h => Bool.noConfusion (hd.symm.trans h), fun _ => rfl⟩
        (ih hl huniq.2)

theorem updateOne_status (rx : Engine) (id v : JsVal) (coll : List Doc) :
    ∃ result, updateOne rx id [("status", v)] false coll =
      .ok (result, updateFirst (fun d => pathAny (fun x => x.beq id) ["_id"] (.obj d))
        (fun d => setField d "status" (stored v)) coll) := by
  have hplain : plainKey "status" = true := by decide
  have hrw : updateOne rx id [("status", v)] false coll =
      match coll.find? (fun d => pathAny (fun x => x.beq id) ["_id"] (.obj d)) with
      | some d =>
        .ok (updateResult
            (if JsVal.beq (.obj (applySet [("status", v)] d)) (.obj d) then 0 else 1) .null 0 1,
          updateFirst (fun d => pathAny (fun x => x.beq id) ["_id"] (.obj d))
            (applySet [("status", v)]) coll)
      | none => .ok (updateResult 0 .null 0 0, coll) := by
    simp only [updateOne, List.all_cons, List.all_nil, hplain, queryTest_id, Bool.and_self,
      Bool.not_true, Bool.false_eq_true, if_false]
    rfl
  rw [hrw]
  cases hfind : coll.find? (fun d => pathAny (fun x => x.beq id) ["_id"] (.obj d)) with
  | none =>
    refine ⟨updateResult 0 .null 0 0, ?_⟩
    rw [updateFirst_of_find?_none _ (fun d => setField d "status" (stored v)) _ hfind]
  | some d => exact ⟨_, rfl⟩

/-- C9. With any valid session, whatever email it carries, `PATCH /requestFoods/:id`
with a status value in the body is answered with the driver's result; the item
with that identifier has its `status` set to the value and its other fields
unchanged, and every other item, as well as the requests collection, is
unchanged.  The session's email is not consulted. -/
theorem patchRequestFoods_status (env : Env) (db : Db) (req : Request) (t : Token)
    (claim : Doc) (id v : JsVal)
    (hwf : WellFormed db.foodCollection)
    (hroute : req.route = .patchRequestFoods) (ht : req.token = some t)
    (hv : jwtVerify env.SECRET_KEY req.now t = some claim)
    (hid : ObjectId req.param = some id)
    (hstatus : getField req.body "status" = v) (hgiven : v ≠ .undefined) :
    (∃ result, (serve env db req).1 = .send result) ∧
    (serve env db req).2.foodRequestCollection = db.foodRequestCollection ∧
    List.Forall₂ (fun d d' =>
        (getField d "_id" = id →
          d' = setField d "status" v ∧ getField d' "status" = v ∧
            ∀ k, k ≠ "status" → getField d' k = getField d k) ∧
        (getField d "_id" ≠ id → d' = d))
      db.foodCollection (serve env db req).2.foodCollection := by
  have hstored : stored v = v := by cases v <;> first | rfl | exact absurd rfl hgiven
  obtain ⟨result, hupd⟩ := updateOne_status env.regex id v db.foodCollection
  have hserve : serve env db req = (.send result, { db with foodCollection :=
      (updateFirst (fun d => pathAny (fun x => x.beq id) ["_id"] (.obj d))
        (fun d => setField d "status" v) db.foodCollection) }) := by
    rw [serve_of_verified env db req t claim (by rw [hroute]; rfl) ht hv, hroute]
    simp only [handler, patchRequestFoods, hid, hstatus, hupd, sendFoods, hstored]
  refine ⟨⟨result, by rw [hserve]⟩, by rw [hserve], ?_⟩
  rw [hserve]
  refine List.Forall₂.imp ?_
    (updateFirst_forall₂ _ _ (fun d => ∀ xs, getField d "_id" ≠ .arr xs) _ hwf.1
      (wellFormed_unique _ hwf id))
  rintro d d' ⟨hnoarr, hyes, hno⟩
  refine ⟨fun hd => ?_, fun hd => hno ?_⟩
  · have := hyes ((idTest_iff id d hnoarr).2 hd)
    subst this
    refine ⟨rfl, by simp [getField_setField], fun k hk => ?_⟩
    rw [getField_setField, if_neg (fun h => hk h.symm)]
  · rw [Bool.eq_false_iff]
    exact fun h => hd ((idTest_iff id d hnoarr).1 h)

/-! ## The store invariant is kept by every request -/

theorem wellFormed_iff_ids (coll : List Doc) :
    WellFormed coll ↔
      (∀ v ∈ coll.map (fun d => getField d "_id"), ∀ xs, v ≠ .arr xs) ∧
        (coll.map fun d => getField d "_id").Pairwise (· ≠ ·) := by
  simp [WellFormed, List.pairwise_map]

theorem objectId_oid (s : String) (id : JsVal) (h : ObjectId s = some id) : ∃ hex, id = .oid hex := by
  unfold ObjectId at h
  split at h
  · exact ⟨_, (Option.some.inj h).symm⟩
  · simp at h

theorem plainKey_ne_id (k : String) (h : plainKey k = true) : k ≠ "_id" := by
  simp only [plainKey, Bool.and_eq_true, bne_iff_ne] at h
  exact h.2

theorem getField_applySet_id (fields d : Doc) (h : fields.all (fun kv => plainKey kv.1) = true) :
    getField (applySet fields d) "_id" = getField d "_id" := by
  induction fields generalizing d with
  | nil => rfl
  | cons kv rest ih =>
    simp only [List.all_cons, Bool.and_eq_true] at h
    have := ih (setField d kv.1 (stored kv.2)) h.2
    simp only [applySet, List.foldl_cons] at this ⊢
    rw [this, getField_setField, if_neg (plainKey_ne_id _ h.1)]

theorem ids_updateFirst (test : Doc → Bool) (f : Doc → Doc) (coll : List Doc)
    (hf : ∀ d, getField (f d) "_id" = getField d "_id") :
    (updateFirst test f coll).map (fun d => getField d "_id")
      = coll.map fun d => getField d "_id" := by
  induction coll with
  | nil => rfl
  | cons d l ih =>
    cases hd : test d with
    | true => simp [updateFirst, hd, hf]
    | false => simp [updateFirst, hd, ih]

theorem removeFirst_sublist (test : Doc → Bool) (coll : List Doc) :
    (removeFirst test coll).Sublist coll := by
  induction coll with
  | nil => exact List.Sublist.refl _
  | cons d l ih =>
    cases hd : test d with
    | true => simp [removeFirst, hd]
    | false => simpa [removeFirst, hd] using ih

theorem wellFormed_sublist (l coll : List Doc) (hs : l.Sublist coll) (h : WellFormed coll) :
    WellFormed l :=
  ⟨fun d hd => h.1 d (hs.subset hd), h.2.sublist hs⟩

theorem wellFormed_append (coll : List Doc) (d : Doc) (h : WellFormed coll)
    (harr : ∀ xs, getField d "_id" ≠ .arr xs)
    (hnew : ∀ x ∈ coll, getField x "_id" ≠ getField d "_id") : WellFormed (coll ++ [d]) := by
  refine ⟨fun x hx => ?_, ?_⟩
  · rcases List.mem_append.1 hx with hx | hx
    · exact h.1 x hx
    · rw [List.mem_singleton.1 hx]; exact harr
  · refine List.pairwise_append.2 ⟨h.2, List.pairwise_singleton _ _, fun a ha b hb => ?_⟩
    rw [List.mem_singleton.1 hb]
    exact hnew a ha

theorem insertOne_wellFormed (gen : String) (doc : Doc) (coll : List Doc) (r : JsVal)
    (coll' : List Doc) (h : WellFormed coll) (hins : insertOne gen doc coll = .ok (r, coll')) :
    WellFormed coll' := by
  unfold insertOne at hins
  simp only at hins
  split at hins
  · simp at hins
  · rename_i id hnotarr
    split at hins
    · simp at hins
    · rename_i hany
      simp only [Except.ok.injEq, Prod.mk.injEq] at hins
      rw [← hins.2]
      have hid : ∀ (v : JsVal) (rest : Doc), getField (("_id", v) :: rest) "_id" = v := by
        intro v rest; simp [getField]
      refine wellFormed_append _ _ h (fun xs => ?_) fun x hx => ?_
      · rw [hid]; exact fun hxs => hnotarr xs hxs
      · rw [hid]
        intro hx'
        exact hany (List.any_eq_true.2 ⟨x, hx, (JsVal.beq_iff _ _).2 hx'⟩)

theorem updateOne_wellFormed (rx : Engine) (s : String) (id : JsVal) (fields : Doc)
    (upsert : Bool) (coll : List Doc) (r : JsVal) (coll' : List Doc) (h : WellFormed coll)
    (hid : ObjectId s = some id)
    (hupd : updateOne rx id fields upsert coll = .ok (r, coll')) :
    WellFormed coll' := by
  unfold updateOne at hupd
  split at hupd
  · simp at hupd
  · rename_i hplain
    simp only [Bool.not_eq_true, Bool.not_eq_false'] at hplain
    simp only [queryTest_id] at hupd
    cases hfind : coll.find? (fun d => pathAny (fun x => x.beq id) ["_id"] (.obj d)) with
    | some d =>
      simp only [hfind, Except.ok.injEq, Prod.mk.injEq] at hupd
      rw [← hupd.2, wellFormed_iff_ids,
        ids_updateFirst _ _ _ (fun d => getField_applySet_id fields d hplain),
        ← wellFormed_iff_ids]
      exact h
    | none =>
      simp only [hfind] at hupd
      cases upsert with
      | false =>
        simp only [Bool.false_eq_true, if_false, Except.ok.injEq, Prod.mk.injEq] at hupd
        rw [← hupd.2]; exact h
      | true =>
        simp only [if_true, Except.ok.injEq, Prod.mk.injEq] at hupd
        rw [← hupd.2]
        have hnew : getField (applySet fields [("_id", id)]) "_id" = id := by
          rw [getField_applySet_id fields _ hplain]; simp [getField]
        obtain ⟨hex, rfl⟩ := objectId_oid s id hid
        refine wellFormed_append _ _ h (fun xs => by rw [hnew]; simp) fun x hx => ?_
        rw [hnew]
        intro hx'
        have := List.find?_eq_none.1 hfind x hx
        exact this ((idTest_iff _ x (h.1 x hx)).2 hx')

/-- Every request leaves both collections well formed. -/
theorem serve_wellFormed (env : Env) (db : Db) (req : Request)
    (hf : WellFormed db.foodCollection) (hr : WellFormed db.foodRequestCollection) :
    WellFormed (serve env db req).2.foodCollection ∧
      WellFormed (serve env db req).2.foodRequestCollection := by
  have keep : ∀ r : Response, WellFormed (r, db).2.foodCollection ∧
      WellFormed (r, db).2.foodRequestCollection := fun _ => ⟨hf, hr⟩
  have docs : ∀ r, WellFormed (sendDocs db r).2.foodCollection ∧
      WellFormed (sendDocs db r).2.foodRequestCollection := by
    intro r; cases r <;> exact ⟨hf, hr⟩
  have one : ∀ r, WellFormed (sendOne db r).2.foodCollection ∧
      WellFormed (sendOne db r).2.foodRequestCollection := by
    intro r; cases r <;> exact ⟨hf, hr⟩
  have foods : ∀ r, (∀ v l, r = .ok (v, l) → WellFormed l) →
      WellFormed (sendFoods db r).2.foodCollection ∧
        WellFormed (sendFoods db r).2.foodRequestCollection := by
    intro r h
    rcases r with e | ⟨v, l⟩
    · exact ⟨hf, hr⟩
    · exact ⟨h v l rfl, hr⟩
  have requests : ∀ r, (∀ v l, r = .ok (v, l) → WellFormed l) →
      WellFormed (sendRequests db r).2.foodCollection ∧
        WellFormed (sendRequests db r).2.foodRequestCollection := by
    intro r h
    rcases r with e | ⟨v, l⟩
    · exact ⟨hf, hr⟩
    · exact ⟨hf, h v l rfl⟩
  have handled : ∀ (route : Route) (q : Request),
      WellFormed (handler route env db q).2.foodCollection ∧
        WellFormed (handler route env db q).2.foodRequestCollection := by
    intro route q
    cases route <;> simp only [handler]
    · unfold postJwt; split <;> exact ⟨hf, hr⟩
    · exact ⟨hf, hr⟩
    · exact docs _
    · unfold getAllFoods; split <;> exact ⟨hf, hr⟩
    · unfold getFood; split
      · exact ⟨hf, hr⟩
      · exact one _
    · simp only [postFoods]; split
      · exact ⟨hf, hr⟩
      · exact foods _ fun v l h => insertOne_wellFormed _ _ _ _ _ hf h
    · unfold patchRequestFoods; split
      · exact ⟨hf, hr⟩
      · rename_i id hid
        exact foods _ fun v l h => updateOne_wellFormed _ _ _ _ _ _ _ _ hf hid h
    · simp only [getFoodManage]; split
      · exact ⟨hf, hr⟩
      · exact docs _
    · unfold putUpdateFood; split
      · exact ⟨hf, hr⟩
      · rename_i id hid
        exact foods _ fun v l h => updateOne_wellFormed _ _ _ _ _ _ _ _ hf hid h
    · unfold deleteFood; split
      · exact ⟨hf, hr⟩
      · refine foods _ fun v l h => ?_
        simp only [deleteOne, queryTest_id, Except.ok.injEq, Prod.mk.injEq] at h
        rw [← h.2]
        exact wellFormed_sublist _ _ (removeFirst_sublist _ _) hf
    · simp only [getMyRequest]; split
      · exact ⟨hf, hr⟩
      · exact docs _
    · exact requests _ fun v l h => insertOne_wellFormed _ _ _ _ _ hr h
    · exact ⟨hf, hr⟩
  unfold serve
  split
  · split
    · exact ⟨hf, hr⟩
    · exact handled _ _
  · exact handled _ _

theorem wellFormed_sampleDb : WellFormed sampleDb.foodCollection := by
  refine ⟨fun d hd xs => ?_, List.pairwise_singleton _ _⟩
  have : d = rice := by simpa [sampleDb] using hd
  subst this
  simp [rice, getField]

/-- C2, witness: `POST /foods` without a cookie. -/
theorem verifyToken_unauthorized_iff_witness :
    gated ({ sampleReq with route := .postFoods } : Request).route = true ∧
    ∃ msg, (serve sampleEnv sampleDb { sampleReq with route := .postFoods }).1
      = .status 401 msg :=
  ⟨rfl, (verifyToken_unauthorized_iff sampleEnv sampleDb
    { sampleReq with route := .postFoods } rfl).1.2 (Or.inl rfl)⟩

/-- C1, witness: `ann@x.org` lists her own items. -/
theorem ownership_gate_witness :
    (annReq .getFoodManage "ann@x.org").token = some (sampleToken "ann@x.org") ∧
    jwtVerify sampleEnv.SECRET_KEY (annReq .getFoodManage "ann@x.org").now
        (sampleToken "ann@x.org")
      = some [("email", .str "ann@x.org"), ("iat", .num 1000), ("exp", .num 31537000)] ∧
    serve sampleEnv sampleDb (annReq .getFoodManage "ann@x.org")
      = (.send (.arr [.obj rice]), sampleDb) :=
  ⟨rfl, rfl,
    ((ownership_gate sampleEnv sampleDb (annReq .getFoodManage "ann@x.org")
      (sampleToken "ann@x.org") _ "ann@x.org" "ann@x.org" rfl rfl rfl).1 rfl rfl).trans rfl⟩

/-- C10, witness: a session issued for the empty body `{}` at clock 1000 adds an
item without donator at clock 2000. -/
theorem postFoods_absent_emails_witness :
    truthy sampleEnv.SECRET_KEY = true ∧
    ∃ token,
      postJwt sampleEnv sampleDb { sampleReq with route := .postJwt, now := 1000 }
        = (.cookie token false "strict", sampleDb) ∧
      serve sampleEnv sampleDb
          { sampleReq with route := .postFoods, body := [("name", .str "Water")],
                           token := some token }
        = (.send (.obj [("acknowledged", .bool true),
              ("insertedId", .oid "0123456789abcdef01234567")]),
            ⟨[rice, [("_id", .oid "0123456789abcdef01234567"), ("name", .str "Water")]], []⟩) :=
  ⟨rfl,
    (postFoods_absent_emails sampleEnv sampleDb
      { sampleReq with route := .postJwt, now := 1000 }
      { sampleReq with route := .postFoods, body := [("name", .str "Water")] }
      rfl rfl rfl rfl rfl rfl rfl (by decide)).imp
      fun _ h => ⟨h.1, ((h.2 none).1).trans rfl⟩⟩

/-- C5, witness: three items in the order March, January, February come back in
the order of their expiry dates under `sort=asc`. -/
theorem getFoods_sort_witness :
    ({ sampleReq with sort := some "asc" } : Request).route = .getFoods ∧
    foodsSort (some "asc") = some ("expiredDate", .num 1) ∧
    (serve sampleEnv
        ⟨[dated "Milk" "2025-03-01", dated "Eggs" "2025-01-15", dated "Tofu" "2025-02-10"], []⟩
        { sampleReq with sort := some "asc" }).1
      = .send (.arr [.obj (dated "Eggs" "2025-01-15"), .obj (dated "Tofu" "2025-02-10"),
          .obj (dated "Milk" "2025-03-01")]) ∧
    ∃ result : List Doc,
      [JsVal.obj (dated "Eggs" "2025-01-15"), .obj (dated "Tofu" "2025-02-10"),
          .obj (dated "Milk" "2025-03-01")] = result.map .obj ∧
        result.Pairwise fun a b =>
          before 1 (getField a "expiredDate") (getField b "expiredDate") = true :=
  ⟨rfl,
    (getFoods_sort sampleEnv
      ⟨[dated "Milk" "2025-03-01", dated "Eggs" "2025-01-15", dated "Tofu" "2025-02-10"], []⟩
      { sampleReq with sort := some "asc" } "asc" rfl rfl (Or.inl rfl)).1,
    rfl,
    (getFoods_sort sampleEnv
      ⟨[dated "Milk" "2025-03-01", dated "Eggs" "2025-01-15", dated "Tofu" "2025-02-10"], []⟩
      { sampleReq with sort := some "asc" } "asc" rfl rfl (Or.inl rfl)).2.2.2 _ rfl⟩

/-- C6, witness: three items with quantities 3, 10 and 7. -/
theorem getAllFoods_featured_witness :
    (∀ d ∈ [portion "3", portion "10", portion "7"], safeQuantity d) ∧
    ∃ top rest : List Doc,
      serve sampleEnv ⟨[portion "3", portion "10", portion "7"], []⟩
          { sampleReq with route := .getAllFoods }
        = (.send (.arr (top.map .obj)), ⟨[portion "3", portion "10", portion "7"], []⟩) ∧
      top.length = min 6 [portion "3", portion "10", portion "7"].length ∧
      (top ++ rest).Perm [portion "3", portion "10", portion "7"] ∧
      top.Pairwise quantityGe ∧
      ∀ a ∈ top, ∀ b ∈ rest, quantityGe a b :=
  have hsafe : ∀ d ∈ [portion "3", portion "10", portion "7"], safeQuantity d := by
    intro d hd
    simp only [List.mem_cons, List.mem_singleton, List.not_mem_nil, or_false] at hd
    rcases hd with rfl | rfl | rfl
    · exact ⟨3, rfl, by decide⟩
    · exact ⟨10, rfl, by decide⟩
    · exact ⟨7, rfl, by decide⟩
  ⟨hsafe, getAllFoods_featured sampleEnv ⟨[portion "3", portion "10", portion "7"], []⟩
    { sampleReq with route := .getAllFoods } rfl hsafe⟩

/-- C7, witness: `ann@x.org` donates `beans` and fetches it back. -/
theorem postFoods_then_getFood_witness :
    WellFormed sampleDb.foodCollection ∧
    (serve sampleEnv sampleDb (annReq .postFoods "")).1
      = .send (.obj [("acknowledged", .bool true),
          ("insertedId", .oid "0123456789abcdef01234567")]) ∧
    hasField (annReq .postFoods "").body "_id" = false ∧
    ObjectId (annReq .postFoods "").gen = some (.oid (annReq .postFoods "").gen) ∧
    (serve sampleEnv (serve sampleEnv sampleDb (annReq .postFoods "")).2
        { sampleReq with route := .getFood, param := "0123456789abcdef01234567" }).1
      = .send (.obj (("_id", .oid "0123456789abcdef01234567") :: beans)) :=
  ⟨wellFormed_sampleDb, rfl, rfl, rfl,
    (postFoods_then_getFood sampleEnv sampleDb (annReq .postFoods "")
      { sampleReq with route := .getFood, param := "0123456789abcdef01234567" } _
      wellFormed_sampleDb rfl rfl rfl rfl rfl rfl).2⟩

/-- C8, witness: `ann@x.org` deletes `rice`; fetching it afterwards returns
nothing. -/
theorem deleteFood_then_getFood_witness :
    WellFormed sampleDb.foodCollection ∧
    ObjectId (annReq .deleteFood "aaaaaaaaaaaaaaaaaaaaaaaa").param
      = some (.oid "aaaaaaaaaaaaaaaaaaaaaaaa") ∧
    (serve sampleEnv (serve sampleEnv sampleDb (annReq .deleteFood "aaaaaaaaaaaaaaaaaaaaaaaa")).2
        { sampleReq with route := .getFood, param := "aaaaaaaaaaaaaaaaaaaaaaaa" }).1
      = .send .null :=
  ⟨wellFormed_sampleDb, rfl,
    ((deleteFood_then_getFood sampleEnv sampleDb (annReq .deleteFood "aaaaaaaaaaaaaaaaaaaaaaaa")
      (sampleToken "ann@x.org") _ (.oid "aaaaaaaaaaaaaaaaaaaaaaaa") wellFormed_sampleDb
      rfl rfl rfl rfl).2.2 { sampleReq with route := .getFood, param := "aaaaaaaaaaaaaaaaaaaaaaaa" }
      rfl).1 rfl⟩

/-- C9, witness: a session of `bob@y.org` sets the status of `rice`, an item
donated by `ann@x.org`. -/
theorem patchRequestFoods_status_witness :
    WellFormed sampleDb.foodCollection ∧
    getField rice "donator" = .obj [("donatorEmail", .str "ann@x.org")] ∧
    List.Forall₂ (fun d d' =>
        (getField d "_id" = .oid "aaaaaaaaaaaaaaaaaaaaaaaa" →
          d' = setField d "status" (.str "requested") ∧
            getField d' "status" = .str "requested" ∧
            ∀ k, k ≠ "status" → getField d' k = getField d k) ∧
        (getField d "_id" ≠ .oid "aaaaaaaaaaaaaaaaaaaaaaaa" → d' = d))
      sampleDb.foodCollection
      (serve sampleEnv sampleDb
        { sampleReq with route := .patchRequestFoods, param := "aaaaaaaaaaaaaaaaaaaaaaaa",
                         body := [("status", .str "requested")],
                         token := some (sampleToken "bob@y.org") }).2.foodCollection :=
  ⟨wellFormed_sampleDb, rfl,
    (patchRequestFoods_status sampleEnv sampleDb
      { sampleReq with route := .patchRequestFoods, param := "aaaaaaaaaaaaaaaaaaaaaaaa",
                       body := [("status", .str "requested")],
                       token := some (sampleToken "bob@y.org") }
      (sampleToken "bob@y.org") _ (.oid "aaaaaaaaaaaaaaaaaaaaaaaa") (.str "requested")
      wellFormed_sampleDb rfl rfl rfl rfl rfl (by simp)).2.2⟩

end FoodCircle
